import Mathlib

/-!
# termlm: the interactive session of `src/main.go`

A shallow embedding of the session state machine (`model`, `initialModel`,
`Update`, `generateCommand`) and of the failures `GetCommand` returns.

Go strings are byte sequences: `len` counts bytes, `s[:n]` slices bytes and
`+` concatenates bytes, so a Go `string` is a `List UInt8` here.
-/

namespace Termlm

/-- A Go `string`: an immutable sequence of bytes. -/
abbrev GoString := List UInt8

/-- A Go string literal: the UTF-8 bytes of its text. -/
def lit (s : String) : GoString := s.data.flatMap String.utf8EncodeChar

/-- The struct `model` (src/main.go:33-41). `cursor` is a Go `int`. -/
structure model where
  textInput : GoString
  cursor : Int
  loading : Bool
  result : GoString
  error : GoString
  context : GoString
  done : Bool
deriving DecidableEq, Repr

/-- The messages `Update` receives. A `tea.KeyMsg` is given by the string its
`String()` method returns, which is all `Update` reads of it. A `generateMsg`
(src/main.go:43-46) carries `result` and `err`; `err` is `none` for `nil` and
otherwise the text its `Error()` method returns, which is all `Update` reads
of it. Any other message type is `other`. -/
inductive Msg where
  | KeyMsg (name : GoString)
  | generateMsg (result : GoString) (err : Option GoString)
  | other
deriving DecidableEq, Repr

/-- The commands `Update` returns: `nil`, `tea.Quit`, or the closure built by
`generateCommand`, given by the two arguments it passes to `GetCommand`. -/
inductive Cmd where
  | nil
  | Quit
  | GetCommand (systemPrompt prompt : GoString)
deriving DecidableEq, Repr

/-- The function `initialModel` (src/main.go:63-73); `ctx` is what
`gatherContext` returned. `result` and `error` get Go zero values. -/
def initialModel (ctx : GoString) : model :=
  { textInput := [], cursor := 0, loading := false, result := [], error := [],
    context := ctx, done := false }

/-- The system instruction passed at src/main.go:198. -/
def systemInstruction : GoString :=
  lit "You are an expert shell assistant. Output only a single valid shell command.\n\nRETURN THE RESULT ONLY IN THE FOLLOWING JSON FORMAT: \x7b\"command\": \"<command>\"\x7d"

/-- The method `generateCommand` (src/main.go:194-203): the command that calls
`GetCommand` with the fixed instruction and `context + "---" + textInput`. -/
def generateCommand (m : model) : Cmd :=
  .GetCommand systemInstruction (m.context ++ lit "---" ++ m.textInput)

/-- The method `Update` (src/main.go:114-164). -/
def Update (m : model) (msg : Msg) : model × Cmd :=
  match msg with
  | .KeyMsg name =>
    if m.loading then (m, .nil)
    else if name = lit "ctrl+c" ∨ name = lit "q" ∨ name = lit "esc" then (m, .Quit)
    else if name = lit "enter" then
      if m.result ≠ [] then ({ m with done := true }, .Quit)
      else if m.textInput ≠ [] then
        ({ m with loading := true }, generateCommand { m with loading := true })
      else (m, .nil)
    else if name = lit "backspace" then
      if m.textInput.length > 0 then
        let m1 := { m with textInput := m.textInput.take (m.textInput.length - 1) }
        if m1.cursor > 0 then ({ m1 with cursor := m1.cursor - 1 }, .nil) else (m1, .nil)
      else (m, .nil)
    else
      if !m.loading && m.result = [] then
        let m1 := { m with textInput := m.textInput ++ name }
        ({ m1 with cursor := (m1.textInput.length : Int) }, .nil)
      else (m, .nil)
  | .generateMsg result err =>
    let m1 := { m with loading := false }
    match err with
    | some e => ({ m1 with error := e }, .nil)
    | none => ({ m1 with result := result }, .nil)
  | .other => (m, .nil)

/-- The failures `GetCommand` returns (src/main.go:241-293), one constructor
for each `return "", fmt.Errorf(...)`; `cause` is the text of the wrapped
error and `responseData` the response body. -/
inductive GetCommandError where
  | keyNotSet
  | endpointNotSet
  | buildBody (cause : GoString)
  | createRequest (cause : GoString)
  | httpRequest (cause : GoString)
  | readBody (cause : GoString)
  | unmarshalResponse (cause : GoString)
  | noChoices (responseData : GoString)
  | unmarshalCommand (cause : GoString)
deriving DecidableEq, Repr

/-- The text `Error()` returns for each failure of `GetCommand`: the format
string of its `fmt.Errorf` with the argument substituted. -/
def GetCommandError.Error : GetCommandError → GoString
  | .keyNotSet => lit "OPENAI_KEY environment variable is not set"
  | .endpointNotSet => lit "OPENAI_ENDPOINT environment variable is not set"
  | .buildBody cause => lit "failed to build JSON body: " ++ cause
  | .createRequest cause => lit "failed to create HTTP request: " ++ cause
  | .httpRequest cause => lit "failed to make HTTP request: " ++ cause
  | .readBody cause => lit "failed to read response body: " ++ cause
  | .unmarshalResponse cause => lit "failed to unmarshal OpenAI response: " ++ cause
  | .noChoices responseData => lit "no choices returned from OpenAI: " ++ responseData
  | .unmarshalCommand cause => lit "failed to unmarshal command: " ++ cause

/-- The message a failing `GetCommand` makes `generateCommand` post
(src/main.go:201): `generateMsg` with `result` empty and `err` set. -/
def failureMsg (e : GetCommandError) : Msg := .generateMsg [] (some e.Error)

/-- The message a succeeding `GetCommand` makes `generateCommand` post
(src/main.go:201): `generateMsg` with `result` set and `err` nil. -/
def successMsg (s : GoString) : Msg := .generateMsg s none

/-- The four phases of the session. -/
inductive Phase where
  | Editing
  | Generating
  | Result
  | Error
deriving DecidableEq, Repr

/-- The phase of a session, read off its fields by the branches of `View`
(src/main.go:169-181). -/
def phase (m : model) : Phase :=
  if m.loading then .Generating
  else if m.result ≠ [] then .Result
  else if m.error ≠ [] then .Error
  else .Editing

/-- The session after the event loop has passed the messages `msgs` to
`Update` in order, starting from `m`. -/
def run (m : model) : List Msg → model
  | [] => m
  | e :: es => run (Update m e).1 es

/-- The commands `Update` returned along `run m msgs`, in order. -/
def dispatched (m : model) : List Msg → List Cmd
  | [] => []
  | e :: es => (Update m e).2 :: dispatched (Update m e).1 es

/-- Whether every `generateMsg` of `msgs` arrives while the session is
loading, as the outcome of the request dispatched on entering that phase. -/
def wellTimed (m : model) : List Msg → Bool
  | [] => true
  | e :: es =>
    (match e with
      | .generateMsg _ _ => m.loading
      | _ => true) && wellTimed (Update m e).1 es

/-- Whether `e` is the enter key arriving in phase Error with text to submit. -/
def resubmits (m : model) (e : Msg) : Bool :=
  decide (e = .KeyMsg (lit "enter")) && decide (phase m = .Error) &&
    decide (m.textInput ≠ [])

/-- Whether no message of `msgs` submits the text again from phase Error. -/
def noResubmit (m : model) : List Msg → Bool
  | [] => true
  | e :: es => !resubmits m e && noResubmit (Update m e).1 es

/-- An editing event: a printable character typed, or backspace. -/
inductive Edit where
  | char (c : Char)
  | backspace
deriving DecidableEq, Repr

/-- The key message of an editing event: the key of a printable character is
named by the UTF-8 text of the character (the text of its runes, a space for
the space key), the backspace key is named `backspace`. The library names
control characters otherwise (`esc`, `enter`, `tab`, `ctrl+c`), so for those
this is not the message of the key; statements about typed text take
printable characters. -/
def Edit.toMsg : Edit → Msg
  | .char c => .KeyMsg (String.utf8EncodeChar c)
  | .backspace => .KeyMsg (lit "backspace")

/-- One edit on a sequence of characters: a character is appended, backspace
drops the last character if there is one. -/
def applyEdit (s : List Char) : Edit → List Char
  | .char c => s ++ [c]
  | .backspace => s.dropLast

/-- The edits folded over an initially empty sequence of characters. -/
def applyEdits (es : List Edit) : List Char := es.foldl applyEdit []

/-- The bytes of a sequence of characters. -/
def encode (s : List Char) : GoString := s.flatMap String.utf8EncodeChar

/-- A printable single-byte character: space up to tilde. -/
def printableASCII (c : Char) : Prop := 0x20 ≤ c.toNat ∧ c.toNat ≤ 0x7e

instance (c : Char) : Decidable (printableASCII c) := by
  unfold printableASCII; infer_instance

/-- An editing event that is backspace or a printable single-byte character
other than `q`. -/
def plainEdit : Edit → Prop
  | .char c => printableASCII c ∧ c ≠ 'q'
  | .backspace => True

instance (e : Edit) : Decidable (plainEdit e) := by
  cases e <;> unfold plainEdit <;> infer_instance

/-- The session reached by typing `a` and pressing enter: phase Generating. -/
def generatingSession : model :=
  run (initialModel []) [.KeyMsg (lit "a"), .KeyMsg (lit "enter")]

/-- The session reached by typing `a`, pressing enter and receiving a failed
HTTP request as the outcome: phase Error. -/
def errorSession : model :=
  run (initialModel [])
    [.KeyMsg (lit "a"), .KeyMsg (lit "enter"), failureMsg (.httpRequest (lit "EOF"))]

/-! ## The completion client -/

deriving instance DecidableEq for Except

/-- The local type `Message` of `buildJsonBody` (src/main.go:206-209). -/
structure Message where
  Role : GoString
  Content : GoString
deriving DecidableEq, Repr

/-- The local type `RequestBody` of `buildJsonBody` (src/main.go:211-216);
`ResponseFormatType` is the field `ResponseFormat.Type`. -/
structure RequestBody where
  Messages : List Message
  ResponseFormatType : GoString
deriving DecidableEq, Repr

/-- The value `buildJsonBody` hands to `json.Marshal` (src/main.go:218-224). -/
def requestBody (systemPrompt prompt : GoString) : RequestBody :=
  { Messages := [{ Role := lit "system", Content := systemPrompt },
                 { Role := lit "user", Content := prompt }],
    ResponseFormatType := lit "json_object" }

/-- The request `GetCommand` builds with `http.NewRequest` and its two
`Header.Set` calls (src/main.go:257-263). -/
structure Request where
  Method : GoString
  URL : GoString
  Header : List (GoString × GoString)
  Body : GoString
deriving DecidableEq, Repr

/-- The type `OpenAIResponse` (src/main.go:21-27), flattened: each choice is
given by its `Message.Content`. -/
structure OpenAIResponse where
  Choices : List GoString
deriving DecidableEq, Repr

/-- The type `Command` (src/main.go:29-31). -/
structure Command where
  Command : GoString
deriving DecidableEq, Repr

/-- What `GetCommand` calls outside this repository. An error is given by the
text of its `Error()`. `Marshal` is `json.Marshal` on the request body,
`NewRequestError` the failure of `http.NewRequest` for a URL if it has one, `Do`
is `http.DefaultClient.Do` followed by `io.ReadAll` of the response body (the
outer error is the one of `Do`, the inner one the one of `ReadAll`), and the
two `Unmarshal` functions are `json.Unmarshal` into `OpenAIResponse` and into
`Command`. -/
structure Client where
  Marshal : RequestBody → Except GoString GoString
  NewRequestError : GoString → Option GoString
  Do : Request → Except GoString (Except GoString GoString)
  UnmarshalResponse : GoString → Except GoString OpenAIResponse
  UnmarshalCommand : GoString → Except GoString Command

/-- The process environment: the variables that are set, newest first. -/
abbrev Env := List (GoString × GoString)

/-- The function `os.Getenv`: the value of the variable, empty if unset. -/
def Getenv (env : Env) (key : GoString) : GoString :=
  match env.lookup key with
  | some v => v
  | none => []

/-- The function `buildJsonBody` (src/main.go:205-227). -/
def buildJsonBody (cl : Client) (systemPrompt prompt : GoString) : Except GoString GoString :=
  cl.Marshal (requestBody systemPrompt prompt)

/-- The decoding part of `GetCommand` (src/main.go:276-292), on the bytes read
from the response. -/
def decodeResponse (cl : Client) (responseData : GoString) :
    Except GetCommandError GoString :=
  match cl.UnmarshalResponse responseData with
  | .error cause => .error (.unmarshalResponse cause)
  | .ok openAIResponse =>
    match openAIResponse.Choices with
    | [] => .error (.noChoices responseData)
    | content :: _ =>
      match cl.UnmarshalCommand content with
      | .error cause => .error (.unmarshalCommand cause)
      | .ok command => .ok command.Command

/-- The function `GetCommand` (src/main.go:241-293): its result, and the
requests it passed to `http.DefaultClient.Do`, in order. -/
def GetCommand (env : Env) (cl : Client) (systemPrompt prompt : GoString) :
    Except GetCommandError GoString × List Request :=
  let openaiKey := Getenv env (lit "OPENAI_KEY")
  if openaiKey = [] then (.error .keyNotSet, [])
  else
    let openaiEndpoint := Getenv env (lit "OPENAI_ENDPOINT")
    if openaiEndpoint = [] then (.error .endpointNotSet, [])
    else
      match buildJsonBody cl systemPrompt prompt with
      | .error cause => (.error (.buildBody cause), [])
      | .ok body =>
        match cl.NewRequestError openaiEndpoint with
        | some cause => (.error (.createRequest cause), [])
        | none =>
          let req : Request :=
            { Method := lit "POST", URL := openaiEndpoint,
              Header := [(lit "Content-Type", lit "application/json"),
                         (lit "api-key", openaiKey)],
              Body := body }
          match cl.Do req with
          | .error cause => (.error (.httpRequest cause), [req])
          | .ok (.error cause) => (.error (.readBody cause), [req])
          | .ok (.ok responseData) => (decodeResponse cl responseData, [req])

/-- The message `generateMsg` built from what `GetCommand` returned
(src/main.go:201). -/
def toGenerateMsg : Except GetCommandError GoString → Msg
  | .ok result => successMsg result
  | .error err => failureMsg err

/-- The message a command posts when the event loop runs it: none for `nil`
and `tea.Quit`, the `generateMsg` of `GetCommand` for the closure of
`generateCommand` (src/main.go:195-202). -/
def runCmd (env : Env) (cl : Client) : Cmd → Option Msg
  | .nil => none
  | .Quit => none
  | .GetCommand systemPrompt prompt =>
    some (toGenerateMsg (GetCommand env cl systemPrompt prompt).1)

/-! ## The packaged environment -/

/-- The function `strings.Split` for a one-byte separator: the substrings
between the separators, one more than there are separators. -/
def Split (sep : UInt8) : GoString → List GoString
  | [] => [[]]
  | b :: s =>
    if b = sep then [] :: Split sep s
    else
      match Split sep s with
      | [] => [[b]]
      | l :: ls => (b :: l) :: ls

/-- The UTF-8 texts of the characters `unicode.IsSpace` accepts: tab, line
feed, vertical tab, form feed, carriage return, space, U+0085, U+00A0,
U+1680, U+2000 to U+200A, U+2028, U+2029, U+202F, U+205F and U+3000. -/
def spaces : List GoString :=
  [[0x09], [0x0a], [0x0b], [0x0c], [0x0d], [0x20], [0xc2, 0x85], [0xc2, 0xa0],
   [0xe1, 0x9a, 0x80], [0xe2, 0x80, 0x80], [0xe2, 0x80, 0x81], [0xe2, 0x80, 0x82],
   [0xe2, 0x80, 0x83], [0xe2, 0x80, 0x84], [0xe2, 0x80, 0x85], [0xe2, 0x80, 0x86],
   [0xe2, 0x80, 0x87], [0xe2, 0x80, 0x88], [0xe2, 0x80, 0x89], [0xe2, 0x80, 0x8a],
   [0xe2, 0x80, 0xa8], [0xe2, 0x80, 0xa9], [0xe2, 0x80, 0xaf], [0xe2, 0x81, 0x9f],
   [0xe3, 0x80, 0x80]]

/-- The number of bytes of the entry of `table` that `s` starts with, 0 if
it starts with none. -/
def leadingWidth (table : List GoString) (s : GoString) : Nat :=
  match table.find? (fun w => w.isPrefixOf s) with
  | some w => w.length
  | none => 0

/-- The text `s` without the entries of `table` it starts with; `fuel` bounds
the number of entries removed. -/
def trimLeading (table : List GoString) : Nat → GoString → GoString
  | 0, s => s
  | fuel + 1, s =>
    if leadingWidth table s = 0 then s
    else trimLeading table fuel (s.drop (leadingWidth table s))

/-- The function `strings.TrimSpace`: the text without its leading and
trailing white space. -/
def TrimSpace (s : GoString) : GoString :=
  let t := trimLeading spaces s.length s
  (trimLeading (spaces.map List.reverse) t.length t.reverse).reverse

/-- The function `strings.HasPrefix`. -/
def HasPrefix (s pre : GoString) : Bool := pre.isPrefixOf s

/-- The function `strings.SplitN(s, sep, 2)` for a one-byte separator: the
text before the first separator and the text after it, if there is one. -/
def SplitN2 (sep : UInt8) : GoString → Option (GoString × GoString)
  | [] => none
  | b :: s =>
    if b = sep then some ([], s)
    else
      match SplitN2 sep s with
      | some (k, v) => some (b :: k, v)
      | none => none

/-- The function `strings.ReplaceAll(s, old, "")` for a one-byte `old`. -/
def RemoveAll (old : UInt8) (s : GoString) : GoString := s.filter (fun b => b ≠ old)

/-- Whether `os.Setenv(key, value)` succeeds: the key is not empty and holds
neither `=` nor a zero byte, and the value holds no zero byte. -/
def validSetenv (key value : GoString) : Bool :=
  decide (key ≠ []) && !key.contains 0x3d && !key.contains 0 && !value.contains 0

/-- The function `os.Setenv`, its error dropped as `loadEmbeddedEnv` drops
it: the variable gets the value, or nothing changes when the call fails. -/
def Setenv (env : Env) (key value : GoString) : Env :=
  if validSetenv key value then (key, value) :: env else env

/-- The assignment a line of the packaged text makes in the loop body of
`loadEmbeddedEnv` (src/main.go:232-236), if it makes one. -/
def lineAssignment (line : GoString) : Option (GoString × GoString) :=
  let line := TrimSpace line
  if line ≠ [] ∧ HasPrefix line (lit "#") = false then
    match SplitN2 0x3d line with
    | some (key, value) => some (key, RemoveAll 0x22 value)
    | none => none
  else none

/-- The loop body of `loadEmbeddedEnv` (src/main.go:232-237) for one line. -/
def loadLine (env : Env) (line : GoString) : Env :=
  match lineAssignment line with
  | some (key, value) => Setenv env key value
  | none => env

/-- The function `loadEmbeddedEnv` (src/main.go:229-239); `envFile` is the
embedded file `.env`. -/
def loadEmbeddedEnv (envFile : GoString) (env : Env) : Env :=
  (Split 0x0a envFile).foldl loadLine env

/-- Whether a line of the packaged text assigns `key` a value with which
`os.Setenv` succeeds. -/
def assigns (key : GoString) (line : GoString) : Prop :=
  ∃ value, lineAssignment line = some (key, value) ∧ validSetenv key value = true

/-! ## The view -/

/-- The four `lipgloss` styles (src/main.go:48-61), each given by its
`Render`. -/
structure Styles where
  inputStyle : GoString → GoString
  loadingStyle : GoString → GoString
  errorStyle : GoString → GoString
  resultStyle : GoString → GoString

/-- The method `View` (src/main.go:166-192). -/
def View (st : Styles) (m : model) : GoString :=
  if m.loading then
    st.loadingStyle (lit "🔄 Generating command...") ++ lit "\n"
  else if m.result ≠ [] then
    lit "Generated: " ++ st.resultStyle m.result ++ lit "\n" ++
      lit "Press Enter to use, ESC to cancel"
  else if m.error ≠ [] then
    st.errorStyle (lit "Error: " ++ m.error) ++ lit "\n" ++ lit "Press ESC to exit"
  else
    lit "What command do you need? " ++ st.inputStyle m.textInput ++
      (if m.cursor = (m.textInput.length : Int) then st.inputStyle (lit "_") else [])

/-! ## The driver -/

/-- What `main` leaves behind: the bytes written to standard output and to
standard error, the file `os.WriteFile` wrote (name, data, permission) when it
was called and returned no error, and the exit status. -/
structure Output where
  stdout : GoString
  stderr : GoString
  written : Option (GoString × GoString × Nat)
  exitCode : Nat
deriving DecidableEq, Repr

/-- The function `main` after `loadEmbeddedEnv()` (src/main.go:298-324).
`WriteFile` is `os.WriteFile`, giving the text of the error if it fails;
`Args` is `os.Args`; `runResult` is what `p.Run()` returned, the final model
or the text of the error. -/
def main (WriteFile : GoString → GoString → Nat → Option GoString) (Args : List GoString)
    (runResult : Except GoString model) : Output :=
  let tempFile : GoString := if Args.length > 1 then Args.getD 1 [] else []
  match runResult with
  | .error err =>
    { stdout := [], stderr := lit "Error running program: " ++ err ++ lit "\n",
      written := none, exitCode := 1 }
  | .ok m =>
    if m.result ≠ [] ∧ m.done = true then
      if tempFile ≠ [] then
        match WriteFile tempFile m.result 0o644 with
        | some err =>
          { stdout := [], stderr := lit "Error writing result: " ++ err ++ lit "\n",
            written := none, exitCode := 1 }
        | none =>
          { stdout := [], stderr := [], written := some (tempFile, m.result, 0o644),
            exitCode := 0 }
      else { stdout := m.result, stderr := [], written := none, exitCode := 0 }
    else { stdout := [], stderr := [], written := none, exitCode := 0 }

/-- A file system on which every write succeeds. -/
def writable : GoString → GoString → Nat → Option GoString := fun _ _ _ => none

/-- A file system without the directory `nodir`: writing `nodir/x.txt` fails
and every other write succeeds. -/
def missingDir : GoString → GoString → Nat → Option GoString := fun name _ _ =>
  if name = lit "nodir/x.txt" then some (lit "open nodir/x.txt: no such file or directory")
  else none

/-- The key messages of a text typed character by character. -/
def typeText (text : List Char) : List Msg := text.map (fun c => Edit.toMsg (.char c))

/-! ## A mock endpoint -/

/-- The response body of the scenario: one choice whose content is the
command object for `ls -la`. -/
def lsResponse : GoString :=
  lit "\x7b\"choices\":[\x7b\"message\":\x7b\"content\":\"\x7b\\\"command\\\":\\\"ls -la\\\"\x7d\"\x7d\x7d]\x7d"

/-- The content of the choice in `lsResponse`. -/
def lsContent : GoString := lit "\x7b\"command\":\"ls -la\"\x7d"

/-- The response body with a `choices` list of length zero. -/
def noChoicesResponse : GoString := lit "\x7b\"choices\":[]\x7d"

/-- A client whose endpoint answers every request with `responseData`, and
which decodes the three texts above as `json.Unmarshal` does and rejects
every other text. -/
def mockClient (responseData : GoString) : Client :=
  { Marshal := fun _ => .ok (lit "body"),
    NewRequestError := fun _ => none,
    Do := fun _ => .ok (.ok responseData),
    UnmarshalResponse := fun data =>
      if data = lsResponse then .ok { Choices := [lsContent] }
      else if data = noChoicesResponse then .ok { Choices := [] }
      else .error (lit "invalid character"),
    UnmarshalCommand := fun data =>
      if data = lsContent then .ok { Command := lit "ls -la" }
      else .error (lit "invalid character") }

/-- An environment with both configuration values set. -/
def mockEnv : Env :=
  [(lit "OPENAI_KEY", lit "secret"), (lit "OPENAI_ENDPOINT", lit "https://example.test")]

/-! ## The scenario -/

/-- The session after `text` has been typed and enter pressed. -/
def submitted (ctx : GoString) (text : List Char) : model :=
  run (initialModel ctx) (typeText text ++ [.KeyMsg (lit "enter")])

/-- The session after the successful outcome carrying `c` has arrived. -/
def answered (ctx : GoString) (text : List Char) (c : GoString) : model :=
  (Update (submitted ctx text) (successMsg c)).1

/-! ## Helper lemmas -/

theorem phase_generating_iff (m : model) : phase m = .Generating ↔ m.loading = true := by
  unfold phase; split_ifs <;> simp_all

theorem phase_result_iff (m : model) :
    phase m = .Result ↔ m.loading = false ∧ m.result ≠ [] := by
  unfold phase; split_ifs <;> simp_all

theorem phase_error_iff (m : model) :
    phase m = .Error ↔ m.loading = false ∧ m.result = [] ∧ m.error ≠ [] := by
  unfold phase; split_ifs <;> simp_all

theorem phase_editing_iff (m : model) :
    phase m = .Editing ↔ m.loading = false ∧ m.result = [] ∧ m.error = [] := by
  unfold phase; split_ifs <;> simp_all

theorem GetCommandError.Error_ne_nil (e : GetCommandError) : e.Error ≠ [] := by
  cases e <;> simp only [GetCommandError.Error, ne_eq, List.append_eq_nil] <;>
    first
    | decide
    | (intro h; exact absurd h.1 (by decide))

theorem Update_key_loading (m : model) (h : m.loading = true) (k : GoString) :
    Update m (.KeyMsg k) = (m, .nil) := by
  simp [Update, h]

/-! ## The quit keys -/

/-- C1, as stated, fails: in the Generating session reached by typing `a` and
pressing enter, `Update` on `ctrl+c` returns no command, not the quit
command. -/
theorem quit_key_while_generating_returns_nil :
    phase generatingSession = .Generating ∧
      (Update generatingSession (.KeyMsg (lit "ctrl+c"))).2 ≠ .Quit := by
  decide

/-- C1, amended: in every phase other than Generating, `Update` on a quit key
(`ctrl+c`, `q` or `esc`) returns the quit command and the session unchanged;
in phase Generating the quit key is ignored: the session is unchanged and no
command is returned. -/
theorem Update_quit_key (m : model) (k : GoString)
    (hk : k = lit "ctrl+c" ∨ k = lit "q" ∨ k = lit "esc") :
    (phase m ≠ .Generating → Update m (.KeyMsg k) = (m, .Quit)) ∧
      (phase m = .Generating → Update m (.KeyMsg k) = (m, .nil)) := by
  constructor
  · intro h
    have hl : m.loading = false := by simpa [phase_generating_iff] using h
    simp [Update, hl, hk]
  · intro h
    exact Update_key_loading m ((phase_generating_iff m).1 h) k

theorem Update_quit_key_witness :
    (lit "esc" = lit "ctrl+c" ∨ lit "esc" = lit "q" ∨ lit "esc" = lit "esc") ∧
      Update errorSession (.KeyMsg (lit "esc")) = (errorSession, .Quit) :=
  ⟨by decide, (Update_quit_key errorSession (lit "esc") (by decide)).1 (by decide)⟩

/-! ## Keys while Generating -/

theorem run_keys_loading (m : model) (h : m.loading = true) (ks : List GoString) :
    run m (ks.map .KeyMsg) = m := by
  induction ks with
  | nil => rfl
  | cons k ks ih => simp only [List.map_cons, run, Update_key_loading m h k]; exact ih

theorem dispatched_keys_loading (m : model) (h : m.loading = true) (ks : List GoString) :
    dispatched m (ks.map .KeyMsg) = List.replicate ks.length .nil := by
  induction ks with
  | nil => rfl
  | cons k ks ih =>
    simp only [List.map_cons, dispatched, Update_key_loading m h k, List.length_cons,
      List.replicate_succ]
    rw [ih]

/-- C2: in phase Generating, `Update` on any key returns the session unchanged
and no command; hence after any sequence of keys the session is still the
same and every command returned on the way is nil, so no second request is
dispatched before the outcome arrives. -/
theorem Update_key_while_generating (m : model) (h : phase m = .Generating) :
    (∀ k : GoString, Update m (.KeyMsg k) = (m, .nil)) ∧
      (∀ ks : List GoString, run m (ks.map .KeyMsg) = m ∧
        dispatched m (ks.map .KeyMsg) = List.replicate ks.length .nil) := by
  rw [phase_generating_iff] at h
  exact ⟨Update_key_loading m h, fun ks =>
    ⟨run_keys_loading m h ks, dispatched_keys_loading m h ks⟩⟩

theorem Update_key_while_generating_witness :
    phase generatingSession = .Generating ∧
      Update generatingSession (.KeyMsg (lit "enter")) = (generatingSession, .nil) :=
  ⟨by decide, (Update_key_while_generating generatingSession (by decide)).1 (lit "enter")⟩

/-! ## Completion outcomes -/

/-- C3, as stated, fails for the empty string: a successful outcome carrying
the empty command takes the Generating session back to phase Editing. -/
theorem empty_success_outcome_is_not_result :
    phase generatingSession = .Generating ∧
      phase (Update generatingSession (successMsg [])).1 = .Editing := by
  decide

/-- C3, amended: for every session in phase Generating and every non-empty
string `s`, the successful outcome carrying `s` moves the session to phase
Result with `result` equal to `s`; `error` is left as it was, so it remains
unset when it was unset. -/
theorem Update_success_outcome (m : model) (s : GoString)
    (_h : phase m = .Generating) (hs : s ≠ []) :
    phase (Update m (successMsg s)).1 = .Result ∧
      (Update m (successMsg s)).1.result = s ∧
      (Update m (successMsg s)).1.error = m.error ∧
      (m.error = [] → (Update m (successMsg s)).1.error = []) := by
  refine ⟨?_, ?_, ?_, ?_⟩
  · rw [phase_result_iff]; simp [Update, successMsg, hs]
  · simp [Update, successMsg]
  · simp [Update, successMsg]
  · intro he; simpa [Update, successMsg] using he

theorem Update_success_outcome_witness :
    (phase generatingSession = .Generating ∧ lit "ls -la" ≠ []) ∧
      phase (Update generatingSession (successMsg (lit "ls -la"))).1 = .Result ∧
      (Update generatingSession (successMsg (lit "ls -la"))).1.result = lit "ls -la" :=
  ⟨⟨by decide, by decide⟩,
    (Update_success_outcome generatingSession (lit "ls -la") (by decide) (by decide)).1,
    (Update_success_outcome generatingSession (lit "ls -la") (by decide) (by decide)).2.1⟩

theorem Update_loading_result (m : model) (msg : Msg)
    (h : m.loading = true → m.result = []) :
    (Update m msg).1.loading = true → (Update m msg).1.result = [] := by
  cases msg with
  | KeyMsg k =>
    simp only [Update]
    split_ifs <;> simp_all
  | generateMsg r e =>
    cases e <;> simp [Update]
  | other => simpa [Update] using h

theorem run_loading_result (msgs : List Msg) :
    ∀ m : model, (m.loading = true → m.result = []) →
      (run m msgs).loading = true → (run m msgs).result = [] := by
  induction msgs with
  | nil => intro m h; exact h
  | cons e es ih => intro m h; exact ih _ (Update_loading_result m e h)

/-- C4: for every session in phase Generating reached from the initial session
by any messages, and every failure `GetCommand` returns, the failing outcome
moves the session to phase Error with `error` equal to the text of the
failure, and `result` remains empty. -/
theorem Update_failure_outcome (ctx : GoString) (msgs : List Msg) (e : GetCommandError)
    (h : phase (run (initialModel ctx) msgs) = .Generating) :
    phase (Update (run (initialModel ctx) msgs) (failureMsg e)).1 = .Error ∧
      (Update (run (initialModel ctx) msgs) (failureMsg e)).1.error = e.Error ∧
      (Update (run (initialModel ctx) msgs) (failureMsg e)).1.result = [] := by
  have hl := (phase_generating_iff _).1 h
  have hr : (run (initialModel ctx) msgs).result = [] :=
    run_loading_result msgs (initialModel ctx) (fun _ => rfl) hl
  refine ⟨?_, ?_, ?_⟩
  · rw [phase_error_iff]
    simp [Update, failureMsg, hr, GetCommandError.Error_ne_nil]
  · simp [Update, failureMsg]
  · simpa [Update, failureMsg] using hr

theorem Update_failure_outcome_witness :
    phase (run (initialModel (lit "PWD: /\n")) [.KeyMsg (lit "a"), .KeyMsg (lit "enter")])
        = .Generating ∧
      phase (Update (run (initialModel (lit "PWD: /\n"))
        [.KeyMsg (lit "a"), .KeyMsg (lit "enter")]) (failureMsg .keyNotSet)).1 = .Error :=
  ⟨by decide,
    (Update_failure_outcome (lit "PWD: /\n") [.KeyMsg (lit "a"), .KeyMsg (lit "enter")]
      .keyNotSet (by decide)).1⟩

/-! ## Acceptance -/

theorem Update_done_iff (m : model) (msg : Msg) (hd : m.done = false) :
    (Update m msg).1.done = true ↔ (msg = .KeyMsg (lit "enter") ∧ phase m = .Result) := by
  rw [phase_result_iff]
  cases msg with
  | KeyMsg k =>
    simp only [Update]
    split_ifs with hl hq <;> simp_all
    rcases hq with rfl | rfl | rfl <;> intro h <;> exact absurd h (by decide)
  | generateMsg r e =>
    cases e <;> simp [Update, hd]
  | other => simp [Update, hd]

theorem Update_enter_result (m : model) (h : phase m = .Result) :
    Update m (.KeyMsg (lit "enter")) = ({ m with done := true }, .Quit) := by
  rw [phase_result_iff] at h
  have h1 : ¬(lit "enter" = lit "ctrl+c" ∨ lit "enter" = lit "q" ∨ lit "enter" = lit "esc") := by
    decide
  simp [Update, h.1, h.2, h1]

theorem Update_accept_inv (m : model) (msg : Msg)
    (ht : ∀ r e, msg = .generateMsg r e → m.loading = true)
    (h1 : m.loading = true → m.result = []) (h2 : m.done = true → m.result ≠ []) :
    (Update m msg).1.done = true → (Update m msg).1.result ≠ [] := by
  cases msg with
  | KeyMsg k =>
    simp only [Update]
    split_ifs <;> simp_all
  | generateMsg r e =>
    have hl := ht r e rfl
    have hr := h1 hl
    have hd : m.done = false := by
      cases hdone : m.done with
      | false => rfl
      | true => exact absurd hr (h2 hdone)
    cases e <;> simp [Update, hd]
  | other => simpa [Update] using h2

theorem run_accept_inv (msgs : List Msg) :
    ∀ m : model, wellTimed m msgs = true →
      (m.loading = true → m.result = []) → (m.done = true → m.result ≠ []) →
      ((run m msgs).loading = true → (run m msgs).result = []) ∧
        ((run m msgs).done = true → (run m msgs).result ≠ []) := by
  induction msgs with
  | nil => intro m _ h1 h2; exact ⟨h1, h2⟩
  | cons e es ih =>
    intro m hw h1 h2
    simp only [wellTimed, Bool.and_eq_true] at hw
    refine ih _ hw.2 (Update_loading_result m e h1) (Update_accept_inv m e ?_ h1 h2)
    intro r err he
    subst he
    simpa using hw.1

/-- C5: `Update` turns `done` from false to true exactly when the message is
the enter key and the session is in phase Result, and it then returns the
quit command; hence in every state reached from the initial session, outcomes
arriving only while Generating, `done` implies a non-empty `result`, and a
key that ends the session in a phase other than Result leaves `done` false. -/
theorem done_only_from_result (ctx : GoString) (msgs : List Msg)
    (hw : wellTimed (initialModel ctx) msgs = true) :
    (∀ (m : model) (msg : Msg), m.done = false →
        ((Update m msg).1.done = true ↔ (msg = .KeyMsg (lit "enter") ∧ phase m = .Result))) ∧
      (∀ m : model, phase m = .Result →
        Update m (.KeyMsg (lit "enter")) = ({ m with done := true }, .Quit)) ∧
      ((run (initialModel ctx) msgs).done = true → (run (initialModel ctx) msgs).result ≠ []) ∧
      (∀ k : GoString, phase (run (initialModel ctx) msgs) ≠ .Result →
        (Update (run (initialModel ctx) msgs) (.KeyMsg k)).2 = .Quit →
        (Update (run (initialModel ctx) msgs) (.KeyMsg k)).1.done = false) := by
  have hJ := run_accept_inv msgs (initialModel ctx) hw (fun _ => rfl)
    (fun h => by simp [initialModel] at h)
  refine ⟨Update_done_iff, Update_enter_result, hJ.2, ?_⟩
  intro k hp _
  have hd : (run (initialModel ctx) msgs).done = false := by
    cases hdone : (run (initialModel ctx) msgs).done with
    | false => rfl
    | true =>
      exfalso
      apply hp
      rw [phase_result_iff]
      refine ⟨?_, hJ.2 hdone⟩
      cases hl : (run (initialModel ctx) msgs).loading with
      | false => rfl
      | true => exact absurd (hJ.1 hl) (hJ.2 hdone)
  cases hdone : (Update (run (initialModel ctx) msgs) (.KeyMsg k)).1.done with
  | false => rfl
  | true => exact absurd ((Update_done_iff _ _ hd).1 hdone).2 hp

theorem done_only_from_result_witness :
    wellTimed (initialModel []) [.KeyMsg (lit "a"), .KeyMsg (lit "enter"),
        successMsg (lit "ls -la"), .KeyMsg (lit "enter")] = true ∧
      ((run (initialModel []) [.KeyMsg (lit "a"), .KeyMsg (lit "enter"),
        successMsg (lit "ls -la"), .KeyMsg (lit "enter")]).done = true →
       (run (initialModel []) [.KeyMsg (lit "a"), .KeyMsg (lit "enter"),
        successMsg (lit "ls -la"), .KeyMsg (lit "enter")]).result ≠ []) :=
  ⟨by decide,
    (done_only_from_result [] [.KeyMsg (lit "a"), .KeyMsg (lit "enter"),
        successMsg (lit "ls -la"), .KeyMsg (lit "enter")] (by decide)).2.2.1⟩

/-! ## Result and error together -/

/-- C6, as stated, fails: typing `a`, enter, a failed HTTP request, enter
again and a successful outcome `ls` reaches, without any quit command on the
way and each outcome arriving while Generating, a session whose `result` and
`error` are both non-empty. -/
theorem result_and_error_both_set :
    wellTimed (initialModel []) [.KeyMsg (lit "a"), .KeyMsg (lit "enter"),
        failureMsg (.httpRequest (lit "EOF")), .KeyMsg (lit "enter"),
        successMsg (lit "ls")] = true ∧
      Cmd.Quit ∉ dispatched (initialModel []) [.KeyMsg (lit "a"), .KeyMsg (lit "enter"),
        failureMsg (.httpRequest (lit "EOF")), .KeyMsg (lit "enter"),
        successMsg (lit "ls")] ∧
      (run (initialModel []) [.KeyMsg (lit "a"), .KeyMsg (lit "enter"),
        failureMsg (.httpRequest (lit "EOF")), .KeyMsg (lit "enter"),
        successMsg (lit "ls")]).result ≠ [] ∧
      (run (initialModel []) [.KeyMsg (lit "a"), .KeyMsg (lit "enter"),
        failureMsg (.httpRequest (lit "EOF")), .KeyMsg (lit "enter"),
        successMsg (lit "ls")]).error ≠ [] := by
  decide

theorem Update_exclusive_inv (m : model) (msg : Msg)
    (ht : ∀ r e, msg = .generateMsg r e → m.loading = true)
    (hn : resubmits m msg = false)
    (h1 : m.loading = true → m.result = [] ∧ m.error = [])
    (h2 : m.result = [] ∨ m.error = []) :
    ((Update m msg).1.loading = true →
        (Update m msg).1.result = [] ∧ (Update m msg).1.error = []) ∧
      ((Update m msg).1.result = [] ∨ (Update m msg).1.error = []) := by
  cases msg with
  | KeyMsg k =>
    simp only [Update]
    split_ifs with hl hq he hr ht2 <;> simp_all [resubmits, phase_error_iff]
  | generateMsg r e =>
    have hl := ht r e rfl
    have hr := h1 hl
    cases e <;> simp [Update, hr.1, hr.2]
  | other => simpa [Update] using ⟨h1, h2⟩

theorem run_exclusive_inv (msgs : List Msg) :
    ∀ m : model, wellTimed m msgs = true → noResubmit m msgs = true →
      (m.loading = true → m.result = [] ∧ m.error = []) →
      (m.result = [] ∨ m.error = []) →
      (run m msgs).result = [] ∨ (run m msgs).error = [] := by
  induction msgs with
  | nil => intro m _ _ _ h2; exact h2
  | cons e es ih =>
    intro m hw hn h1 h2
    simp only [wellTimed, Bool.and_eq_true] at hw
    simp only [noResubmit, Bool.and_eq_true, Bool.not_eq_true'] at hn
    have hstep := Update_exclusive_inv m e
      (by intro r err he; subst he; simpa using hw.1) hn.1 h1 h2
    exact ih _ hw.2 hn.2 hstep.1 hstep.2

/-- C6, amended: in every state reached from the initial session by messages
of which each outcome arrives while Generating and none is the enter key
pressed in phase Error with text to submit, `result` and `error` are never
both non-empty. -/
theorem result_error_exclusive (ctx : GoString) (msgs : List Msg)
    (hw : wellTimed (initialModel ctx) msgs = true)
    (hn : noResubmit (initialModel ctx) msgs = true) :
    ¬((run (initialModel ctx) msgs).result ≠ [] ∧ (run (initialModel ctx) msgs).error ≠ []) := by
  have h := run_exclusive_inv msgs (initialModel ctx) hw hn (fun _ => ⟨rfl, rfl⟩) (Or.inl rfl)
  rintro ⟨hr, he⟩
  rcases h with h | h
  · exact hr h
  · exact he h

theorem result_error_exclusive_witness :
    (wellTimed (initialModel []) [.KeyMsg (lit "a"), .KeyMsg (lit "enter"),
        failureMsg (.httpRequest (lit "EOF")), .KeyMsg (lit "b")] = true ∧
      noResubmit (initialModel []) [.KeyMsg (lit "a"), .KeyMsg (lit "enter"),
        failureMsg (.httpRequest (lit "EOF")), .KeyMsg (lit "b")] = true) ∧
      ¬((run (initialModel []) [.KeyMsg (lit "a"), .KeyMsg (lit "enter"),
        failureMsg (.httpRequest (lit "EOF")), .KeyMsg (lit "b")]).result ≠ [] ∧
        (run (initialModel []) [.KeyMsg (lit "a"), .KeyMsg (lit "enter"),
        failureMsg (.httpRequest (lit "EOF")), .KeyMsg (lit "b")]).error ≠ []) :=
  ⟨⟨by decide, by decide⟩,
    result_error_exclusive [] [.KeyMsg (lit "a"), .KeyMsg (lit "enter"),
        failureMsg (.httpRequest (lit "EOF")), .KeyMsg (lit "b")] (by decide) (by decide)⟩

/-! ## Keys in phase Error -/

/-- C7, as stated, fails: in the Error session reached by typing `a`, enter
and a failed HTTP request, `Update` on enter moves the session to Generating
and returns the generation request. -/
theorem enter_in_error_resubmits :
    phase errorSession = .Error ∧
      phase (Update errorSession (.KeyMsg (lit "enter"))).1 = .Generating ∧
      (Update errorSession (.KeyMsg (lit "enter"))).2 =
        .GetCommand systemInstruction (lit "---a") :=
  ⟨by decide, by decide, rfl⟩

/-- C7, amended: for every session in phase Error, `Update` on a key other
than enter, or on enter when `textInput` is empty, leaves the session in phase
Error and returns no generation request; on enter with non-empty `textInput`
it moves the session to Generating and returns the generation request. -/
theorem Update_key_in_error (m : model) (k : GoString) (h : phase m = .Error) :
    ((k ≠ lit "enter" ∨ m.textInput = []) →
        phase (Update m (.KeyMsg k)).1 = .Error ∧
          ∀ s p, (Update m (.KeyMsg k)).2 ≠ .GetCommand s p) ∧
      ((k = lit "enter" ∧ m.textInput ≠ []) →
        phase (Update m (.KeyMsg k)).1 = .Generating ∧
          (Update m (.KeyMsg k)).2 = generateCommand { m with loading := true }) := by
  have h1 : ¬(lit "enter" = lit "ctrl+c" ∨ lit "enter" = lit "q" ∨ lit "enter" = lit "esc") := by
    decide
  constructor
  · intro hk
    rw [phase_error_iff] at h ⊢
    simp only [Update]
    split_ifs with hl hq he hr ht2 <;> simp_all
  · rintro ⟨rfl, ht⟩
    rw [phase_error_iff] at h
    rw [phase_generating_iff]
    simp [Update, h.1, h.2.1, h1, ht]

theorem Update_key_in_error_witness :
    phase errorSession = .Error ∧
      phase (Update errorSession (.KeyMsg (lit "x"))).1 = .Error :=
  ⟨by decide, ((Update_key_in_error errorSession (lit "x") (by decide)).1
    (Or.inl (by decide))).1⟩

/-! ## Editing -/

theorem utf8EncodeChar_ascii (c : Char) (h : c.toNat ≤ 0x7f) :
    String.utf8EncodeChar c = [c.val.toUInt8] := by
  have h1 : c.val ≤ 0x7f := by
    rw [UInt32.le_def]
    exact h
  simp [String.utf8EncodeChar, h1]

theorem eq_q_of_byte (c : Char) (h : c.toNat ≤ 0x7f) (hq : c.val.toUInt8 = 113) : c = 'q' := by
  have h2 : c.val.toUInt8.toNat = 113 := by rw [hq]; rfl
  have h3 : c.val.toUInt8.toNat = c.val.toNat % 256 := rfl
  rw [h3] at h2
  have h4 : c.val.toNat = 113 := by
    have : c.val.toNat ≤ 0x7f := h
    omega
  apply Char.ext
  apply UInt32.ext
  simpa using h4

theorem encode_append (s t : List Char) : encode (s ++ t) = encode s ++ encode t := by
  simp [encode]

theorem encode_dropLast (s : List Char) (h : ∀ c ∈ s, c.toNat ≤ 0x7f) :
    (encode s).take ((encode s).length - 1) = encode s.dropLast := by
  rcases List.eq_nil_or_concat s with rfl | ⟨t, c, rfl⟩
  · rfl
  · have hc : c.toNat ≤ 0x7f := h c (by simp)
    have he : encode [c] = [c.val.toUInt8] := by
      simp [encode, utf8EncodeChar_ascii c hc]
    rw [List.concat_eq_append, List.dropLast_concat, encode_append, he]
    simp

theorem Update_char_key (m : model) (c : Char) (hl : m.loading = false)
    (hr : m.result = []) (hc : printableASCII c) (hq : c ≠ 'q') :
    (Update m (.KeyMsg (String.utf8EncodeChar c))).1 =
      { m with textInput := m.textInput ++ String.utf8EncodeChar c,
               cursor := ((m.textInput ++ String.utf8EncodeChar c).length : Int) } := by
  have h7 : c.toNat ≤ 0x7f := le_trans hc.2 (by decide)
  have hlen : (String.utf8EncodeChar c).length = 1 := by
    rw [utf8EncodeChar_ascii c h7]; rfl
  have n1 : String.utf8EncodeChar c ≠ lit "ctrl+c" := by
    intro h; rw [h] at hlen; exact absurd hlen (by decide)
  have n2 : String.utf8EncodeChar c ≠ lit "q" := by
    intro h
    rw [utf8EncodeChar_ascii c h7] at h
    have : c.val.toUInt8 = 113 := by
      have h0 := List.head_eq_of_cons_eq h
      exact h0
    exact hq (eq_q_of_byte c h7 this)
  have n3 : String.utf8EncodeChar c ≠ lit "esc" := by
    intro h; rw [h] at hlen; exact absurd hlen (by decide)
  have n4 : String.utf8EncodeChar c ≠ lit "enter" := by
    intro h; rw [h] at hlen; exact absurd hlen (by decide)
  have n5 : String.utf8EncodeChar c ≠ lit "backspace" := by
    intro h; rw [h] at hlen; exact absurd hlen (by decide)
  simp [Update, hl, hr, n1, n2, n3, n4, n5]

theorem Update_backspace_key (m : model) (hl : m.loading = false) :
    (Update m (.KeyMsg (lit "backspace"))).1.textInput =
        m.textInput.take (m.textInput.length - 1) ∧
      (Update m (.KeyMsg (lit "backspace"))).1.loading = false ∧
      (Update m (.KeyMsg (lit "backspace"))).1.result = m.result := by
  have h1 : ¬(lit "backspace" = lit "ctrl+c" ∨ lit "backspace" = lit "q" ∨
      lit "backspace" = lit "esc") := by decide
  have h2 : lit "backspace" ≠ lit "enter" := by decide
  simp only [Update, hl, h1, h2, Bool.false_eq_true, if_false, if_true]
  split_ifs with h3 h4 <;> simp_all

theorem run_edits (es : List Edit) :
    ∀ (s : List Char) (m : model), (∀ e ∈ es, plainEdit e) →
      (∀ c ∈ s, printableASCII c) → m.loading = false → m.result = [] →
      m.textInput = encode s →
      (run m (es.map Edit.toMsg)).textInput = encode (es.foldl applyEdit s) := by
  induction es with
  | nil => intro s m _ _ _ _ ht; exact ht
  | cons e es ih =>
    intro s m he hs hl hr ht
    have he1 : plainEdit e := he e (by simp)
    have he2 : ∀ x ∈ es, plainEdit x := fun x hx => he x (by simp [hx])
    simp only [List.map_cons, run, List.foldl_cons]
    cases e with
    | char c =>
      have hc : printableASCII c ∧ c ≠ 'q' := he1
      simp only [Edit.toMsg, applyEdit]
      rw [Update_char_key m c hl hr hc.1 hc.2]
      refine ih (s ++ [c]) _ he2 ?_ hl hr ?_
      · intro x hx
        rcases List.mem_append.1 hx with hx | hx
        · exact hs x hx
        · rw [List.mem_singleton.1 hx]; exact hc.1
      · simp [encode_append, ht, encode]
    | backspace =>
      simp only [Edit.toMsg, applyEdit]
      have hb := Update_backspace_key m hl
      refine ih s.dropLast _ he2 ?_ hb.2.1 (hb.2.2.trans hr) ?_
      · intro x hx
        exact hs x (List.dropLast_subset s hx)
      · rw [hb.1, ht]
        exact encode_dropLast s (fun c hc => le_trans (hs c hc).2 (by decide))

/-- C8, as stated, fails: the printable character `q` is a quit key, so after
the one event `q` the text is still empty, while the fold gives `q`. -/
theorem typing_q_appends_nothing :
    (run (initialModel []) ([Edit.char 'q'].map Edit.toMsg)).textInput ≠
      encode (applyEdits [Edit.char 'q']) := by
  decide

/-- C8, amended: for every sequence of backspace events and events of
printable single-byte characters other than `q`, applied to the initial
session, the resulting `textInput` is the text of the character sequence
obtained by folding the same edits over the empty sequence, a character
appending itself and backspace dropping the last character if there is one. -/
theorem textInput_eq_applyEdits (ctx : GoString) (es : List Edit)
    (h : ∀ e ∈ es, plainEdit e) :
    (run (initialModel ctx) (es.map Edit.toMsg)).textInput = encode (applyEdits es) :=
  run_edits es [] (initialModel ctx) h (by simp) rfl rfl rfl

theorem textInput_eq_applyEdits_witness :
    (∀ e ∈ [Edit.char 'l', Edit.char 's', Edit.char 'x', Edit.backspace], plainEdit e) ∧
      (run (initialModel []) ([Edit.char 'l', Edit.char 's', Edit.char 'x',
        Edit.backspace].map Edit.toMsg)).textInput =
        encode (applyEdits [Edit.char 'l', Edit.char 's', Edit.char 'x', Edit.backspace]) :=
  ⟨by decide, textInput_eq_applyEdits [] [Edit.char 'l', Edit.char 's', Edit.char 'x',
    Edit.backspace] (by decide)⟩

/-- Backspace slices one byte off `textInput` (src/main.go:139): after the
two-byte character `é` it leaves the first byte of the character. -/
theorem backspace_after_two_byte_character :
    (run (initialModel []) ([Edit.char 'é', Edit.backspace].map Edit.toMsg)).textInput =
      [0xc3] := by
  decide

/-! ## The cursor -/

theorem Update_cursor (m : model) (msg : Msg) (h : m.cursor = (m.textInput.length : Int)) :
    (Update m msg).1.cursor = ((Update m msg).1.textInput.length : Int) := by
  cases msg with
  | KeyMsg k =>
    simp only [Update]
    split_ifs <;> simp_all
  | generateMsg r e =>
    cases e <;> simpa [Update] using h
  | other => simpa [Update] using h

theorem run_cursor (msgs : List Msg) :
    ∀ m : model, m.cursor = (m.textInput.length : Int) →
      (run m msgs).cursor = ((run m msgs).textInput.length : Int) := by
  induction msgs with
  | nil => intro m h; exact h
  | cons e es ih => intro m h; exact ih _ (Update_cursor m e h)

/-- C9: in every state reached from the initial session by any sequence of
messages, `cursor` equals `len(textInput)`, hence lies between 0 and
`len(textInput)`. -/
theorem cursor_eq_len_textInput (ctx : GoString) (msgs : List Msg) :
    (run (initialModel ctx) msgs).cursor =
        ((run (initialModel ctx) msgs).textInput.length : Int) ∧
      0 ≤ (run (initialModel ctx) msgs).cursor ∧
      (run (initialModel ctx) msgs).cursor ≤
        ((run (initialModel ctx) msgs).textInput.length : Int) := by
  have h := run_cursor msgs (initialModel ctx) rfl
  refine ⟨h, ?_, le_of_eq h⟩
  rw [h]
  exact Int.natCast_nonneg _

/-! ## Editing keys outside phase Editing -/

/-- C10, as stated, fails: in the Error session reached by typing `a`, enter
and a failed HTTP request, the character `x` is appended to `textInput` and
backspace removes its last byte. -/
theorem edit_keys_change_text_in_error :
    phase errorSession = .Error ∧
      (Update errorSession (Edit.toMsg (.char 'x'))).1.textInput ≠ errorSession.textInput ∧
      (Update errorSession (Edit.toMsg .backspace)).1.textInput ≠ errorSession.textInput := by
  decide

theorem utf8EncodeChar_ne_backspace (c : Char) : String.utf8EncodeChar c ≠ lit "backspace" := by
  intro h
  have h1 : (String.utf8EncodeChar c).length ≤ 4 := by
    rw [String.length_utf8EncodeChar]; exact Char.utf8Size_le_four c
  rw [h] at h1
  exact absurd h1 (by decide)

/-- C10, amended: in phase Generating a backspace event and a character event
each leave `textInput` and `cursor` unchanged; in phase Result a character
event leaves them unchanged; in phase Error every key changes `textInput` and
`cursor` exactly as it does in the Editing session with the same fields. -/
theorem edit_keys_outside_editing (m : model) :
    (phase m = .Generating → ∀ e : Edit,
        (Update m e.toMsg).1.textInput = m.textInput ∧ (Update m e.toMsg).1.cursor = m.cursor) ∧
      (phase m = .Result → ∀ c : Char,
        (Update m (Edit.toMsg (.char c))).1.textInput = m.textInput ∧
          (Update m (Edit.toMsg (.char c))).1.cursor = m.cursor) ∧
      (phase m = .Error → phase { m with error := [] } = .Editing ∧ ∀ k : GoString,
        (Update m (.KeyMsg k)).1.textInput =
            (Update { m with error := [] } (.KeyMsg k)).1.textInput ∧
          (Update m (.KeyMsg k)).1.cursor =
            (Update { m with error := [] } (.KeyMsg k)).1.cursor) := by
  refine ⟨?_, ?_, ?_⟩
  · intro h e
    rw [phase_generating_iff] at h
    cases e <;> simp [Edit.toMsg, Update_key_loading m h]
  · intro h c
    rw [phase_result_iff] at h
    have hb := utf8EncodeChar_ne_backspace c
    simp only [Edit.toMsg, Update]
    split_ifs <;> simp_all
  · intro h
    rw [phase_error_iff] at h
    refine ⟨by rw [phase_editing_iff]; exact ⟨h.1, h.2.1, rfl⟩, ?_⟩
    intro k
    simp only [Update]
    split_ifs <;> simp_all

theorem edit_keys_outside_editing_witness :
    phase generatingSession = .Generating ∧
      (Update generatingSession (Edit.toMsg .backspace)).1.textInput =
        generatingSession.textInput :=
  ⟨by decide, ((edit_keys_outside_editing generatingSession).1 (by decide) .backspace).1⟩

/-! ## Submission -/

theorem enter_ne_quit_key :
    ¬(lit "enter" = lit "ctrl+c" ∨ lit "enter" = lit "q" ∨ lit "enter" = lit "esc") := by
  decide

theorem Update_enter_submits (m : model) (h : phase m = .Editing) (ht : m.textInput ≠ []) :
    Update m (.KeyMsg (lit "enter")) =
      ({ m with loading := true },
        .GetCommand systemInstruction (m.context ++ lit "---" ++ m.textInput)) := by
  rw [phase_editing_iff] at h
  simp [Update, h.1, h.2.1, ht, enter_ne_quit_key, generateCommand]

theorem Update_successMsg (m : model) (s : GoString) (hs : s ≠ []) :
    phase (Update m (successMsg s)).1 = .Result ∧ (Update m (successMsg s)).1.result = s := by
  constructor
  · rw [phase_result_iff]; simp [Update, successMsg, hs]
  · simp [Update, successMsg]

theorem Update_failureMsg_reached (ctx : GoString) (msgs : List Msg) (e : GetCommandError)
    (h : phase (run (initialModel ctx) msgs) = .Generating) :
    phase (Update (run (initialModel ctx) msgs) (failureMsg e)).1 = .Error ∧
      (Update (run (initialModel ctx) msgs) (failureMsg e)).1.error = e.Error := by
  have hl := (phase_generating_iff _).1 h
  have hr : (run (initialModel ctx) msgs).result = [] :=
    run_loading_result msgs (initialModel ctx) (fun _ => rfl) hl
  constructor
  · rw [phase_error_iff]
    simp [Update, failureMsg, hr, GetCommandError.Error_ne_nil]
  · simp [Update, failureMsg]

theorem GetCommand_calls_le_one (env : Env) (cl : Client) (sp p : GoString) :
    (GetCommand env cl sp p).2.length ≤ 1 ∧
      ∀ req ∈ (GetCommand env cl sp p).2,
        cl.Marshal (requestBody sp p) = .ok req.Body ∧ req.Method = lit "POST" := by
  unfold GetCommand buildJsonBody
  simp only
  split_ifs
  · simp
  · simp
  · split
    · simp
    · split
      · simp
      · split <;> simp_all

/-- C11: for every session in phase Editing with non-empty `textInput`,
`Update` on enter returns the session with `loading` set and every other
field unchanged, so in phase Generating, and the one command that calls
`GetCommand` with the fixed instruction and `context + "---" + textInput`;
the body built for these has the messages system: the instruction, user:
the joined prompt, and response format type `json_object`, and `GetCommand`
sends at most one request, whose body is that body marshalled. -/
theorem Update_enter_editing (m : model) (h : phase m = .Editing) (ht : m.textInput ≠ []) :
    Update m (.KeyMsg (lit "enter")) =
        ({ m with loading := true },
          .GetCommand systemInstruction (m.context ++ lit "---" ++ m.textInput)) ∧
      phase (Update m (.KeyMsg (lit "enter"))).1 = .Generating ∧
      requestBody systemInstruction (m.context ++ lit "---" ++ m.textInput) =
        { Messages := [{ Role := lit "system", Content := systemInstruction },
                       { Role := lit "user",
                         Content := m.context ++ lit "---" ++ m.textInput }],
          ResponseFormatType := lit "json_object" } ∧
      ∀ (env : Env) (cl : Client),
        (GetCommand env cl systemInstruction
            (m.context ++ lit "---" ++ m.textInput)).2.length ≤ 1 ∧
          ∀ req ∈ (GetCommand env cl systemInstruction
              (m.context ++ lit "---" ++ m.textInput)).2,
            cl.Marshal (requestBody systemInstruction
              (m.context ++ lit "---" ++ m.textInput)) = .ok req.Body := by
  have hu := Update_enter_submits m h ht
  refine ⟨hu, ?_, rfl, ?_⟩
  · rw [hu, phase_generating_iff]
  · intro env cl
    have hc := GetCommand_calls_le_one env cl systemInstruction
      (m.context ++ lit "---" ++ m.textInput)
    exact ⟨hc.1, fun req hreq => (hc.2 req hreq).1⟩

theorem Update_enter_editing_witness :
    (phase (run (initialModel (lit "PWD: /\n")) (typeText "ls".data)) = .Editing ∧
      (run (initialModel (lit "PWD: /\n")) (typeText "ls".data)).textInput ≠ []) ∧
      phase (Update (run (initialModel (lit "PWD: /\n")) (typeText "ls".data))
        (.KeyMsg (lit "enter"))).1 = .Generating :=
  ⟨⟨by decide, by decide⟩,
    (Update_enter_editing (run (initialModel (lit "PWD: /\n")) (typeText "ls".data))
      (by decide) (by decide)).2.1⟩

/-- C12: for every session whose `textInput` is empty, `Update` on enter
leaves the phase as it is; in phase Editing it returns the session unchanged
and no command. -/
theorem Update_enter_empty (m : model) (ht : m.textInput = []) :
    phase (Update m (.KeyMsg (lit "enter"))).1 = phase m ∧
      (phase m = .Editing → Update m (.KeyMsg (lit "enter")) = (m, .nil)) := by
  constructor
  · simp only [Update, phase]
    split_ifs <;> simp_all
  · intro h
    rw [phase_editing_iff] at h
    simp [Update, h.1, h.2.1, ht, enter_ne_quit_key]

theorem Update_enter_empty_witness :
    (initialModel []).textInput = [] ∧
      Update (initialModel []) (.KeyMsg (lit "enter")) = (initialModel [], .nil) :=
  ⟨rfl, (Update_enter_empty (initialModel []) rfl).2 (by decide)⟩

/-! ## The generated command once set -/

theorem Update_key_result_set (m : model) (k : GoString)
    (hl : m.loading = false) (hr : m.result ≠ []) :
    (Update m (.KeyMsg k)).1.result = m.result ∧
      (Update m (.KeyMsg k)).1.loading = false ∧
      ∀ s p, (Update m (.KeyMsg k)).2 ≠ .GetCommand s p := by
  simp only [Update]
  split_ifs <;> simp_all

theorem run_keys_result_set (ks : List GoString) :
    ∀ m : model, m.loading = false → m.result ≠ [] →
      (run m (ks.map .KeyMsg)).result = m.result ∧
        ∀ c ∈ dispatched m (ks.map .KeyMsg), ∀ s p, c ≠ .GetCommand s p := by
  induction ks with
  | nil => intro m _ _; exact ⟨rfl, by simp [dispatched]⟩
  | cons k ks ih =>
    intro m hl hr
    have hk := Update_key_result_set m k hl hr
    have hi := ih (Update m (.KeyMsg k)).1 hk.2.1 (by rw [hk.1]; exact hr)
    refine ⟨?_, ?_⟩
    · simp only [List.map_cons, run]
      rw [hi.1, hk.1]
    · intro c hc
      simp only [List.map_cons, dispatched, List.mem_cons] at hc
      rcases hc with rfl | hc
      · exact hk.2.2
      · exact hi.2 c hc

/-- C13: in every state reached from the initial session, outcomes arriving
only while Generating, in which `result` is non-empty, the session is not
Generating, and after any further keys `result` is still the same and none of
the commands returned is a generation request. -/
theorem result_immutable_once_set (ctx : GoString) (msgs : List Msg)
    (hw : wellTimed (initialModel ctx) msgs = true)
    (hr : (run (initialModel ctx) msgs).result ≠ []) :
    phase (run (initialModel ctx) msgs) ≠ .Generating ∧
      ∀ ks : List GoString,
        (run (run (initialModel ctx) msgs) (ks.map .KeyMsg)).result =
            (run (initialModel ctx) msgs).result ∧
          ∀ c ∈ dispatched (run (initialModel ctx) msgs) (ks.map .KeyMsg),
            ∀ s p, c ≠ .GetCommand s p := by
  have hJ := run_accept_inv msgs (initialModel ctx) hw (fun _ => rfl)
    (fun h => by simp [initialModel] at h)
  have hl : (run (initialModel ctx) msgs).loading = false := by
    cases hload : (run (initialModel ctx) msgs).loading with
    | false => rfl
    | true => exact absurd (hJ.1 hload) hr
  refine ⟨?_, fun ks => run_keys_result_set ks _ hl hr⟩
  rw [Ne, phase_generating_iff, hl]
  simp

theorem result_immutable_once_set_witness :
    (wellTimed (initialModel []) [.KeyMsg (lit "a"), .KeyMsg (lit "enter"),
        successMsg (lit "ls")] = true ∧
      (run (initialModel []) [.KeyMsg (lit "a"), .KeyMsg (lit "enter"),
        successMsg (lit "ls")]).result ≠ []) ∧
      phase (run (initialModel []) [.KeyMsg (lit "a"), .KeyMsg (lit "enter"),
        successMsg (lit "ls")]) ≠ .Generating :=
  ⟨⟨by decide, by decide⟩,
    (result_immutable_once_set [] [.KeyMsg (lit "a"), .KeyMsg (lit "enter"),
      successMsg (lit "ls")] (by decide) (by decide)).1⟩

/-! ## Keys with other names -/

/-- C20: for every session that is not Generating and has an empty `result`,
and every key whose name is none of `ctrl+c`, `q`, `esc`, `enter`,
`backspace`, `Update` appends the whole name of the key to `textInput`, sets
`cursor` to the new length, changes no other field and returns no command. -/
theorem Update_other_key (m : model) (k : GoString)
    (hp : phase m ≠ .Generating) (hr : m.result = [])
    (hk : k ≠ lit "ctrl+c" ∧ k ≠ lit "q" ∧ k ≠ lit "esc" ∧ k ≠ lit "enter" ∧
      k ≠ lit "backspace") :
    Update m (.KeyMsg k) =
      ({ m with textInput := m.textInput ++ k,
                cursor := ((m.textInput ++ k).length : Int) }, .nil) := by
  have hl : m.loading = false := by simpa [phase_generating_iff] using hp
  simp [Update, hl, hr, hk.1, hk.2.1, hk.2.2.1, hk.2.2.2.1, hk.2.2.2.2]

theorem Update_other_key_witness :
    (phase errorSession ≠ .Generating ∧ errorSession.result = [] ∧
      lit "tab" ≠ lit "ctrl+c" ∧ lit "tab" ≠ lit "q" ∧ lit "tab" ≠ lit "esc" ∧
      lit "tab" ≠ lit "enter" ∧ lit "tab" ≠ lit "backspace") ∧
      (Update errorSession (.KeyMsg (lit "tab"))).1.textInput = lit "atab" :=
  ⟨⟨by decide, by decide, by decide⟩,
    (congrArg (fun r => r.1.textInput)
      (Update_other_key errorSession (lit "tab") (by decide) (by decide) (by decide))).trans
      (by decide)⟩

/-! ## The driver -/

theorem main_tempFile (Args : List GoString) :
    (if Args.length > 1 then Args.getD 1 [] else []) = Args.getD 1 [] := by
  split_ifs with h
  · rfl
  · rw [List.getD_eq_getElem?_getD, List.getElem?_eq_none (by omega)]
    rfl

/-- C14, as stated, fails: run as `termlm nodir/x.txt` where the directory
`nodir` does not exist, with the command `ls -la` accepted (typed `a`, enter,
the successful outcome, enter), a path argument was supplied and yet nothing
is written to a file or to standard output: `main` writes a diagnostic to
standard error and exits with status 1. -/
theorem write_failure_emits_no_command :
    (run (initialModel []) [.KeyMsg (lit "a"), .KeyMsg (lit "enter"),
        successMsg (lit "ls -la"), .KeyMsg (lit "enter")]).done = true ∧
      main missingDir [lit "termlm", lit "nodir/x.txt"]
          (.ok (run (initialModel []) [.KeyMsg (lit "a"), .KeyMsg (lit "enter"),
            successMsg (lit "ls -la"), .KeyMsg (lit "enter")])) =
        { stdout := [],
          stderr := lit "Error writing result: " ++
            lit "open nodir/x.txt: no such file or directory" ++ lit "\n",
          written := none, exitCode := 1 } :=
  ⟨by decide, by decide⟩

/-- Run as `termlm ""`, with the command `ls -la` accepted: the first argument
is there and empty, and `main` prints the command to standard output. -/
theorem empty_path_argument_prints :
    main writable [lit "termlm", []]
        (.ok { initialModel [] with textInput := lit "a", cursor := 1, result := lit "ls -la",
                                    done := true }) =
      { stdout := lit "ls -la", stderr := [], written := none, exitCode := 0 } := by
  decide

/-- C14, amended: for every final session, every argument list and every
behaviour of `os.WriteFile`, `main` writes something to a file or to standard
output exactly when `done` is set, `result` is non-empty and, if the first
argument is there and non-empty, writing the file named by it succeeds. With
`done` set and `result` non-empty: given a non-empty first argument, `main`
calls `os.WriteFile` on it with `result` itself and permission 0644, and if
that succeeds this is all it does, while if that fails it writes nothing but
the diagnostic `Error writing result: ...` to standard error and exits with
status 1; given no argument or an empty first argument it prints `result`
itself to standard output. When `done` is not set or `result` is empty it
emits nothing. -/
theorem main_output (WriteFile : GoString → GoString → Nat → Option GoString) (m : model) :
    (∀ Args : List GoString,
        ((main WriteFile Args (.ok m)).stdout ≠ [] ∨
            (main WriteFile Args (.ok m)).written ≠ none) ↔
          (m.done = true ∧ m.result ≠ [] ∧
            (Args.getD 1 [] ≠ [] → WriteFile (Args.getD 1 []) m.result 0o644 = none))) ∧
      (m.done = true → m.result ≠ [] →
        (∀ (prog path : GoString) (rest : List GoString), path ≠ [] →
          WriteFile path m.result 0o644 = none →
          main WriteFile (prog :: path :: rest) (.ok m) =
            { stdout := [], stderr := [], written := some (path, m.result, 0o644),
              exitCode := 0 }) ∧
        (∀ (prog path : GoString) (rest : List GoString) (err : GoString), path ≠ [] →
          WriteFile path m.result 0o644 = some err →
          main WriteFile (prog :: path :: rest) (.ok m) =
            { stdout := [], stderr := lit "Error writing result: " ++ err ++ lit "\n",
              written := none, exitCode := 1 }) ∧
        (∀ prog : GoString, main WriteFile [prog] (.ok m) =
          { stdout := m.result, stderr := [], written := none, exitCode := 0 }) ∧
        (∀ (prog : GoString) (rest : List GoString),
          main WriteFile (prog :: [] :: rest) (.ok m) =
            { stdout := m.result, stderr := [], written := none, exitCode := 0 })) ∧
      ((m.done = false ∨ m.result = []) → ∀ Args : List GoString,
        main WriteFile Args (.ok m) =
          { stdout := [], stderr := [], written := none, exitCode := 0 }) := by
  refine ⟨?_, ?_, ?_⟩
  · intro Args
    simp only [main, main_tempFile]
    generalize Args.getD 1 [] = tempFile
    by_cases hr : m.result = []
    · simp [hr]
    · cases hd : m.done
      · simp [hr]
      · by_cases ht : tempFile = []
        · simp [hr, ht]
        · cases hw : WriteFile tempFile m.result 0o644 <;> simp [hr, ht]
  · intro hd hr
    refine ⟨?_, ?_, ?_, ?_⟩
    · intro prog path rest hp hw
      simp [main, hd, hr, hp, hw]
    · intro prog path rest err hp hw
      simp [main, hd, hr, hp, hw]
    · intro prog
      simp [main, hd, hr]
    · intro prog rest
      simp [main, hd, hr]
  · intro h Args
    rcases h with hd | hr
    · simp [main, hd]
    · simp [main, hr]

theorem main_output_witness :
    main writable [lit "termlm", lit "/tmp/out"]
        (.ok { initialModel [] with result := lit "ls -la", done := true }) =
      { stdout := [], stderr := [], written := some (lit "/tmp/out", lit "ls -la", 0o644),
        exitCode := 0 } :=
  ((main_output writable { initialModel [] with result := lit "ls -la", done := true }).2.1 rfl
    (by decide)).1 (lit "termlm") (lit "/tmp/out") [] (by decide) rfl

/-! ## Missing configuration -/

theorem isInfix_of_append (a b c x : GoString) (h : x = a ++ b ++ c) : b <:+: x :=
  ⟨a, c, h.symm⟩

/-- C16: when `OPENAI_KEY` is unset or empty `GetCommand` returns the failure
naming `OPENAI_KEY`, and when the key is set and `OPENAI_ENDPOINT` is unset
or empty the failure naming `OPENAI_ENDPOINT`; in both cases no request is
passed to the client, the result is the same for every client, and entering
a non-empty text in phase Editing and running the returned command leads to
phase Error. -/
theorem GetCommand_config_absent (env : Env) (cl : Client) (sp p : GoString)
    (h : Getenv env (lit "OPENAI_KEY") = [] ∨ Getenv env (lit "OPENAI_ENDPOINT") = []) :
    (Getenv env (lit "OPENAI_KEY") = [] →
        GetCommand env cl sp p = (.error .keyNotSet, [])) ∧
      (Getenv env (lit "OPENAI_KEY") ≠ [] →
        GetCommand env cl sp p = (.error .endpointNotSet, [])) ∧
      lit "OPENAI_KEY" <:+: GetCommandError.keyNotSet.Error ∧
      lit "OPENAI_ENDPOINT" <:+: GetCommandError.endpointNotSet.Error ∧
      (GetCommand env cl sp p).2 = [] ∧
      (∀ cl2 : Client, GetCommand env cl2 sp p = GetCommand env cl sp p) ∧
      (∀ m : model, phase m = .Editing → m.textInput ≠ [] →
        ∃ msg, runCmd env cl (Update m (.KeyMsg (lit "enter"))).2 = some msg ∧
          phase (Update (Update m (.KeyMsg (lit "enter"))).1 msg).1 = .Error) := by
  have hkey : Getenv env (lit "OPENAI_KEY") = [] →
      ∀ c : Client, ∀ a b, GetCommand env c a b = (.error .keyNotSet, []) := by
    intro hk c a b
    simp [GetCommand, hk]
  have hend : Getenv env (lit "OPENAI_KEY") ≠ [] →
      ∀ c : Client, ∀ a b, GetCommand env c a b = (.error .endpointNotSet, []) := by
    intro hk c a b
    have he : Getenv env (lit "OPENAI_ENDPOINT") = [] := by
      rcases h with h | h
      · exact absurd h hk
      · exact h
    simp [GetCommand, hk, he]
  have hfail : ∀ c : Client, ∀ a b, ∃ e : GetCommandError,
      GetCommand env c a b = (.error e, []) := by
    intro c a b
    by_cases hk : Getenv env (lit "OPENAI_KEY") = []
    · exact ⟨_, hkey hk c a b⟩
    · exact ⟨_, hend hk c a b⟩
  refine ⟨fun hk => hkey hk cl sp p, fun hk => hend hk cl sp p, ?_, ?_, ?_, ?_, ?_⟩
  · exact isInfix_of_append [] _ (lit " environment variable is not set") _ (by decide)
  · exact isInfix_of_append [] _ (lit " environment variable is not set") _ (by decide)
  · obtain ⟨e, he⟩ := hfail cl sp p
    rw [he]
  · intro cl2
    by_cases hk : Getenv env (lit "OPENAI_KEY") = []
    · rw [hkey hk cl2 sp p, hkey hk cl sp p]
    · rw [hend hk cl2 sp p, hend hk cl sp p]
  · intro m hm ht
    have hu := Update_enter_submits m hm ht
    obtain ⟨e, he⟩ := hfail cl systemInstruction (m.context ++ lit "---" ++ m.textInput)
    refine ⟨failureMsg e, ?_, ?_⟩
    · rw [hu]
      simp only [runCmd]
      rw [he]
      rfl
    · rw [hu]
      rw [phase_editing_iff] at hm
      rw [phase_error_iff]
      simp [Update, failureMsg, hm.2.1, GetCommandError.Error_ne_nil]

theorem GetCommand_config_absent_witness :
    (Getenv [(lit "OPENAI_ENDPOINT", lit "https://example.test")] (lit "OPENAI_KEY") = [] ∨
      Getenv [(lit "OPENAI_ENDPOINT", lit "https://example.test")]
        (lit "OPENAI_ENDPOINT") = []) ∧
      ∀ cl : Client,
        GetCommand [(lit "OPENAI_ENDPOINT", lit "https://example.test")] cl [] [] =
          (.error .keyNotSet, []) :=
  ⟨Or.inl (by decide), fun cl =>
    (GetCommand_config_absent [(lit "OPENAI_ENDPOINT", lit "https://example.test")] cl [] []
      (Or.inl (by decide))).1 (by decide)⟩

/-! ## Decoding failures -/

theorem append_ne_of_take_ne (a b x y : GoString) (n : Nat)
    (ha : n ≤ a.length) (hb : n ≤ b.length) (h : a.take n ≠ b.take n) :
    a ++ x ≠ b ++ y := by
  intro e
  apply h
  have e2 := congrArg (List.take n) e
  rwa [List.take_append_of_le_length ha, List.take_append_of_le_length hb] at e2

theorem GetCommand_decodes (env : Env) (cl : Client) (sp p body responseData : GoString)
    (hk : Getenv env (lit "OPENAI_KEY") ≠ []) (he : Getenv env (lit "OPENAI_ENDPOINT") ≠ [])
    (hm : cl.Marshal (requestBody sp p) = .ok body)
    (hn : cl.NewRequestError (Getenv env (lit "OPENAI_ENDPOINT")) = none)
    (hd : cl.Do { Method := lit "POST", URL := Getenv env (lit "OPENAI_ENDPOINT"),
                  Header := [(lit "Content-Type", lit "application/json"),
                             (lit "api-key", Getenv env (lit "OPENAI_KEY"))],
                  Body := body } = .ok (.ok responseData)) :
    (GetCommand env cl sp p).1 = decodeResponse cl responseData := by
  simp only [GetCommand, buildJsonBody, hk, he, hm, hn, hd, if_false]

/-- C17: for every response body, decoding fails with the failure of its
stage when the outer JSON does not decode, when the choices list is empty,
and when the content of the first choice does not decode as the command
object, and `GetCommand` returns that failure once the body has been read;
the three messages are pairwise different whatever their causes; the one of
an empty choices list contains `no choices returned`, and a Generating
session that receives it is in phase Error with that message. -/
theorem decode_failures (cl : Client) (responseData : GoString) :
    (∀ cause, cl.UnmarshalResponse responseData = .error cause →
        decodeResponse cl responseData = .error (.unmarshalResponse cause)) ∧
      (∀ r, cl.UnmarshalResponse responseData = .ok r → r.Choices = [] →
        decodeResponse cl responseData = .error (.noChoices responseData)) ∧
      (∀ r content rest cause, cl.UnmarshalResponse responseData = .ok r →
        r.Choices = content :: rest → cl.UnmarshalCommand content = .error cause →
        decodeResponse cl responseData = .error (.unmarshalCommand cause)) ∧
      (∀ (env : Env) (sp p body : GoString),
        Getenv env (lit "OPENAI_KEY") ≠ [] → Getenv env (lit "OPENAI_ENDPOINT") ≠ [] →
        cl.Marshal (requestBody sp p) = .ok body →
        cl.NewRequestError (Getenv env (lit "OPENAI_ENDPOINT")) = none →
        cl.Do { Method := lit "POST", URL := Getenv env (lit "OPENAI_ENDPOINT"),
                Header := [(lit "Content-Type", lit "application/json"),
                           (lit "api-key", Getenv env (lit "OPENAI_KEY"))],
                Body := body } = .ok (.ok responseData) →
        (GetCommand env cl sp p).1 = decodeResponse cl responseData) ∧
      (∀ c1 d c3 : GoString,
        (GetCommandError.unmarshalResponse c1).Error ≠ (GetCommandError.noChoices d).Error ∧
        (GetCommandError.unmarshalResponse c1).Error ≠
          (GetCommandError.unmarshalCommand c3).Error ∧
        (GetCommandError.noChoices d).Error ≠ (GetCommandError.unmarshalCommand c3).Error) ∧
      lit "no choices returned" <:+: (GetCommandError.noChoices responseData).Error ∧
      (∀ (ctx : GoString) (msgs : List Msg),
        phase (run (initialModel ctx) msgs) = .Generating →
        phase (Update (run (initialModel ctx) msgs)
          (toGenerateMsg (.error (.noChoices responseData)))).1 = .Error ∧
        (Update (run (initialModel ctx) msgs)
          (toGenerateMsg (.error (.noChoices responseData)))).1.error =
          (GetCommandError.noChoices responseData).Error) := by
  refine ⟨?_, ?_, ?_, ?_, ?_, ?_, ?_⟩
  · intro cause h
    simp [decodeResponse, h]
  · intro r h hc
    simp [decodeResponse, h, hc]
  · intro r content rest cause h hc hu
    simp [decodeResponse, h, hc, hu]
  · intro env sp p body hk he hm hn hd
    exact GetCommand_decodes env cl sp p body responseData hk he hm hn hd
  · intro c1 d c3
    refine ⟨?_, ?_, ?_⟩
    · exact append_ne_of_take_ne _ _ c1 d 1 (by decide) (by decide) (by decide)
    · exact append_ne_of_take_ne _ _ c1 c3 21 (by decide) (by decide) (by decide)
    · exact append_ne_of_take_ne _ _ d c3 1 (by decide) (by decide) (by decide)
  · exact ⟨[], lit " from OpenAI: " ++ responseData, by
      simp only [GetCommandError.Error, List.nil_append, ← List.append_assoc]
      congr 1⟩
  · intro ctx msgs h
    exact Update_failureMsg_reached ctx msgs (.noChoices responseData) h

theorem decode_failures_witness :
    (mockClient noChoicesResponse).UnmarshalResponse noChoicesResponse =
        .ok { Choices := [] } ∧
      decodeResponse (mockClient noChoicesResponse) noChoicesResponse =
        .error (.noChoices noChoicesResponse) ∧
      (GetCommand mockEnv (mockClient noChoicesResponse) [] []).1 =
        .error (.noChoices noChoicesResponse) :=
  ⟨by decide,
    (decode_failures (mockClient noChoicesResponse) noChoicesResponse).2.1 _ (by decide) rfl,
    ((decode_failures (mockClient noChoicesResponse) noChoicesResponse).2.2.2.1
      mockEnv [] [] (lit "body") (by decide) (by decide) rfl rfl rfl).trans
      ((decode_failures (mockClient noChoicesResponse) noChoicesResponse).2.1 _
        (by decide) rfl)⟩

/-! ## The packaged environment -/

theorem lookup_loadLine_of_not_assigns (env : Env) (line k : GoString)
    (h : ¬assigns k line) : (loadLine env line).lookup k = env.lookup k := by
  unfold loadLine
  split
  · rename_i key value hl
    unfold Setenv
    split_ifs with hv
    · have hne : k ≠ key := by
        rintro rfl
        exact h ⟨value, hl, hv⟩
      have hb : (k == key) = false := by simpa using hne
      simp [List.lookup_cons, hb]
    · rfl
  · rfl

theorem lookup_foldl_loadLine_frame (k : GoString) (lines : List GoString) :
    ∀ env : Env, (∀ line ∈ lines, ¬assigns k line) →
      (lines.foldl loadLine env).lookup k = env.lookup k := by
  induction lines with
  | nil => intro env _; rfl
  | cons l ls ih =>
    intro env h
    simp only [List.foldl_cons]
    rw [ih (loadLine env l) (fun line hl => h line (by simp [hl]))]
    exact lookup_loadLine_of_not_assigns env l k (h l (by simp))

theorem lookup_loadLine_of_assigns (env : Env) (line k value : GoString)
    (hl : lineAssignment line = some (k, value)) (hv : validSetenv k value = true) :
    (loadLine env line).lookup k = some value := by
  simp [loadLine, hl, Setenv, hv, List.lookup_cons]

theorem lookup_foldl_loadLine_assigned (k : GoString) (lines : List GoString) :
    ∀ env : Env, (∃ line ∈ lines, assigns k line) →
      ∃ line ∈ lines, ∃ value, lineAssignment line = some (k, value) ∧
        validSetenv k value = true ∧ (lines.foldl loadLine env).lookup k = some value := by
  induction lines with
  | nil => intro env h; simp at h
  | cons l ls ih =>
    intro env h
    simp only [List.foldl_cons]
    by_cases hex : ∃ line ∈ ls, assigns k line
    · obtain ⟨line, hmem, value, h1, h2, h3⟩ := ih (loadLine env l) hex
      exact ⟨line, by simp [hmem], value, h1, h2, h3⟩
    · have hl : assigns k l := by
        obtain ⟨line, hmem, ha⟩ := h
        rcases List.mem_cons.1 hmem with rfl | hmem
        · exact ha
        · exact absurd ⟨line, hmem, ha⟩ hex
      obtain ⟨value, h1, h2⟩ := hl
      refine ⟨l, by simp, value, h1, h2, ?_⟩
      rw [lookup_foldl_loadLine_frame k ls (loadLine env l)
        (fun line hmem ha => hex ⟨line, hmem, ha⟩)]
      exact lookup_loadLine_of_assigns env l k value h1 h2

/-- C18, as stated, fails: with `OPENAI_KEY` already set to `real` and the
packaged text `OPENAI_KEY=embedded`, the variable holds `embedded` after
`loadEmbeddedEnv`. -/
theorem packaged_value_overrides_environment :
    Getenv [(lit "OPENAI_KEY", lit "real")] (lit "OPENAI_KEY") = lit "real" ∧
      Getenv (loadEmbeddedEnv (lit "OPENAI_KEY=embedded\n") [(lit "OPENAI_KEY", lit "real")])
        (lit "OPENAI_KEY") = lit "embedded" := by
  decide

/-- C18, amended: for every environment and every packaged text, a variable
that no line of the text assigns (with a key and value `os.Setenv` accepts)
has after `loadEmbeddedEnv` the value it had before, set or unset; a variable
that some line assigns has afterwards a value a line of the text assigns to
it, whatever it held before. -/
theorem loadEmbeddedEnv_values (envFile : GoString) (env : Env) (k : GoString) :
    ((∀ line ∈ Split 0x0a envFile, ¬assigns k line) →
        (loadEmbeddedEnv envFile env).lookup k = env.lookup k ∧
          Getenv (loadEmbeddedEnv envFile env) k = Getenv env k) ∧
      ((∃ line ∈ Split 0x0a envFile, assigns k line) →
        ∃ line ∈ Split 0x0a envFile, ∃ value,
          lineAssignment line = some (k, value) ∧
            Getenv (loadEmbeddedEnv envFile env) k = value) := by
  constructor
  · intro h
    have hl := lookup_foldl_loadLine_frame k (Split 0x0a envFile) env h
    exact ⟨hl, by simp only [Getenv, loadEmbeddedEnv, hl]⟩
  · intro h
    obtain ⟨line, hmem, value, h1, _, h3⟩ :=
      lookup_foldl_loadLine_assigned k (Split 0x0a envFile) env h
    exact ⟨line, hmem, value, h1, by simp only [Getenv, loadEmbeddedEnv, h3]⟩

theorem loadEmbeddedEnv_values_witness :
    (∀ line ∈ Split 0x0a (lit "# packaged\nOPENAI_KEY=\"embedded\"\n"),
        ¬assigns (lit "PATH") line) ∧
      Getenv (loadEmbeddedEnv (lit "# packaged\nOPENAI_KEY=\"embedded\"\n")
        [(lit "PATH", lit "/bin")]) (lit "PATH") = Getenv [(lit "PATH", lit "/bin")] (lit "PATH") :=
  have h : ∀ line ∈ Split 0x0a (lit "# packaged\nOPENAI_KEY=\"embedded\"\n"),
      ¬assigns (lit "PATH") line := by
    intro line hmem ⟨value, hl, _⟩
    have hs : Split 0x0a (lit "# packaged\nOPENAI_KEY=\"embedded\"\n") =
        [lit "# packaged", lit "OPENAI_KEY=\"embedded\"", []] := by decide
    rw [hs] at hmem
    simp only [List.mem_cons, List.mem_singleton, List.not_mem_nil, or_false] at hmem
    rcases hmem with rfl | rfl | rfl
    · have h2 : lineAssignment (lit "# packaged") = none := by decide
      rw [h2] at hl
      cases hl
    · have h2 : lineAssignment (lit "OPENAI_KEY=\"embedded\"") =
          some (lit "OPENAI_KEY", lit "embedded") := by decide
      rw [h2] at hl
      have h3 : lit "OPENAI_KEY" = lit "PATH" := congrArg Prod.fst (Option.some.inj hl)
      exact absurd h3 (by decide)
    · have h2 : lineAssignment [] = none := by decide
      rw [h2] at hl
      cases hl
  ⟨h, ((loadEmbeddedEnv_values (lit "# packaged\nOPENAI_KEY=\"embedded\"\n")
    [(lit "PATH", lit "/bin")] (lit "PATH")).1 h).2⟩

/-! ## The view -/

/-- C19: `View` is a function of the session alone (the styles apart) and
renders by phase: the loading line when `loading`; otherwise the label
`Generated: `, the command and the line `Press Enter to use, ESC to cancel`
when `result` is non-empty; otherwise the error text after `Error: ` and the
line `Press ESC to exit` when `error` is non-empty; otherwise the prompt
label, the text and, when the cursor is at the end of the text, the marker
`_`; in every Editing state reached from the initial session the marker is
there. -/
theorem View_by_phase (st : Styles) (m : model) :
    (phase m = .Generating →
        View st m = st.loadingStyle (lit "🔄 Generating command...") ++ lit "\n") ∧
      (phase m = .Result →
        View st m = lit "Generated: " ++ st.resultStyle m.result ++ lit "\n" ++
          lit "Press Enter to use, ESC to cancel") ∧
      (phase m = .Error →
        View st m = st.errorStyle (lit "Error: " ++ m.error) ++ lit "\n" ++
          lit "Press ESC to exit") ∧
      (phase m = .Editing →
        View st m = lit "What command do you need? " ++ st.inputStyle m.textInput ++
          (if m.cursor = (m.textInput.length : Int) then st.inputStyle (lit "_") else [])) ∧
      (∀ (ctx : GoString) (msgs : List Msg), phase (run (initialModel ctx) msgs) = .Editing →
        View st (run (initialModel ctx) msgs) =
          lit "What command do you need? " ++
            st.inputStyle (run (initialModel ctx) msgs).textInput ++ st.inputStyle (lit "_")) := by
  refine ⟨?_, ?_, ?_, ?_, ?_⟩
  · intro h
    rw [phase_generating_iff] at h
    simp [View, h]
  · intro h
    rw [phase_result_iff] at h
    simp [View, h.1, h.2]
  · intro h
    rw [phase_error_iff] at h
    simp [View, h.1, h.2.1, h.2.2]
  · intro h
    rw [phase_editing_iff] at h
    simp [View, h.1, h.2.1, h.2.2]
  · intro ctx msgs h
    have hc := run_cursor msgs (initialModel ctx) rfl
    rw [phase_editing_iff] at h
    simp [View, h.1, h.2.1, h.2.2, hc]

theorem View_by_phase_witness :
    phase generatingSession = .Generating ∧
      ∀ st : Styles, View st generatingSession =
        st.loadingStyle (lit "🔄 Generating command...") ++ lit "\n" :=
  ⟨by decide, fun st => (View_by_phase st generatingSession).1 (by decide)⟩

/-! ## The scenario -/

theorem low_nibble_or_e0_ne (x : UInt8) : x &&& 0x0f ||| 0xe0 ≠ 0x65 := by
  rcases x with ⟨f⟩
  revert f
  decide

theorem utf8EncodeChar_ne_esc (c : Char) : String.utf8EncodeChar c ≠ lit "esc" := by
  have he : lit "esc" = [0x65, 0x73, 0x63] := by decide
  rw [he]
  unfold String.utf8EncodeChar
  intro h
  simp only at h
  split_ifs at h <;> simp at h
  exact low_nibble_or_e0_ne _ h.1

theorem utf8EncodeChar_eq_q (c : Char) (h : String.utf8EncodeChar c = lit "q") : c = 'q' := by
  have he : lit "q" = [113] := by decide
  rw [he] at h
  unfold String.utf8EncodeChar at h
  simp only at h
  split_ifs at h with h1 <;> simp at h
  exact eq_q_of_byte c (by rw [UInt32.le_def] at h1; exact h1) h

theorem utf8EncodeChar_length_le (c : Char) : (String.utf8EncodeChar c).length ≤ 4 := by
  rw [String.length_utf8EncodeChar]
  exact Char.utf8Size_le_four c

theorem Update_typed_char (m : model) (c : Char) (hl : m.loading = false)
    (hr : m.result = []) (hq : c ≠ 'q') :
    Update m (.KeyMsg (String.utf8EncodeChar c)) =
      ({ m with textInput := m.textInput ++ String.utf8EncodeChar c,
                cursor := ((m.textInput ++ String.utf8EncodeChar c).length : Int) }, .nil) := by
  have hlen := utf8EncodeChar_length_le c
  have n1 : String.utf8EncodeChar c ≠ lit "ctrl+c" := by
    intro h; rw [h] at hlen; exact absurd hlen (by decide)
  have n2 : String.utf8EncodeChar c ≠ lit "q" := fun h => hq (utf8EncodeChar_eq_q c h)
  have n3 := utf8EncodeChar_ne_esc c
  have n4 : String.utf8EncodeChar c ≠ lit "enter" := by
    intro h; rw [h] at hlen; exact absurd hlen (by decide)
  have n5 := utf8EncodeChar_ne_backspace c
  simp [Update, hl, hr, n1, n2, n3, n4, n5]

theorem run_append (a b : List Msg) : ∀ m : model, run m (a ++ b) = run (run m a) b := by
  induction a with
  | nil => intro m; rfl
  | cons e es ih => intro m; simp only [List.cons_append, run]; exact ih _

theorem dispatched_append (a b : List Msg) :
    ∀ m : model, dispatched m (a ++ b) = dispatched m a ++ dispatched (run m a) b := by
  induction a with
  | nil => intro m; rfl
  | cons e es ih =>
    intro m
    simp only [List.cons_append, dispatched, run]
    exact congrArg _ (ih _)

theorem run_typeText (text : List Char) :
    ∀ m : model, (∀ ch ∈ text, ch ≠ 'q') → m.loading = false → m.result = [] →
      run m (typeText text) =
          { m with textInput := (run m (typeText text)).textInput,
                   cursor := (run m (typeText text)).cursor } ∧
        (run m (typeText text)).textInput = m.textInput ++ encode text ∧
        dispatched m (typeText text) = List.replicate text.length .nil := by
  induction text with
  | nil => intro m _ _ _; simp [typeText, run, dispatched, encode]
  | cons c t ih =>
    intro m hq hl hr
    have hc : c ≠ 'q' := hq c (by simp)
    have hu := Update_typed_char m c hl hr hc
    have hi := ih (Update m (.KeyMsg (String.utf8EncodeChar c))).1
      (fun ch hch => hq ch (by simp [hch])) (by rw [hu]; exact hl) (by rw [hu]; exact hr)
    have hcons : typeText (c :: t) = .KeyMsg (String.utf8EncodeChar c) :: typeText t := rfl
    rw [hcons]
    simp only [run, dispatched]
    refine ⟨?_, ?_, ?_⟩
    · rw [hi.1]
      rw [hu]
    · rw [hi.2.1, hu]
      simp [encode]
    · rw [hi.2.2, hu]
      rfl

theorem encode_ne_nil (text : List Char) (h : text ≠ []) : encode text ≠ [] := by
  cases text with
  | nil => exact absurd rfl h
  | cons c t =>
    intro he
    have hl := congrArg List.length he
    have hp := Char.utf8Size_pos c
    simp [encode, String.length_utf8EncodeChar] at hl
    omega

theorem GetCommand_succeeds (env : Env) (cl : Client) (systemPrompt prompt : GoString)
    (body responseData content : GoString) (others : List GoString) (c : GoString)
    (hkey : Getenv env (lit "OPENAI_KEY") ≠ [])
    (hend : Getenv env (lit "OPENAI_ENDPOINT") ≠ [])
    (hbody : cl.Marshal (requestBody systemPrompt prompt) = .ok body)
    (hreq : cl.NewRequestError (Getenv env (lit "OPENAI_ENDPOINT")) = none)
    (hdo : cl.Do
        { Method := lit "POST", URL := Getenv env (lit "OPENAI_ENDPOINT"),
          Header := [(lit "Content-Type", lit "application/json"),
                     (lit "api-key", Getenv env (lit "OPENAI_KEY"))],
          Body := body } = .ok (.ok responseData))
    (hresp : cl.UnmarshalResponse responseData = .ok { Choices := content :: others })
    (hcmd : cl.UnmarshalCommand content = .ok { Command := c }) :
    GetCommand env cl systemPrompt prompt =
      (.ok c,
        [{ Method := lit "POST", URL := Getenv env (lit "OPENAI_ENDPOINT"),
           Header := [(lit "Content-Type", lit "application/json"),
                      (lit "api-key", Getenv env (lit "OPENAI_KEY"))],
           Body := body }]) := by
  simp only [GetCommand, buildJsonBody, decodeResponse, hkey, hend, hbody, hreq, hdo, hresp,
    hcmd, if_false]

/-- C15, as stated, fails: after `list files`, enter and a successful
outcome carrying the empty command the session is in phase Editing, not
Result; typing the text `q` returns the quit command at the first key and
enter then requests nothing; and with the empty text enter requests nothing. -/
theorem scenario_needs_text_and_command :
    phase (answered [] "list files".data []) = .Editing ∧
      dispatched (initialModel []) (typeText "q".data ++ [.KeyMsg (lit "enter")]) =
        [.Quit, .nil] ∧
      dispatched (initialModel []) (typeText [] ++ [.KeyMsg (lit "enter")]) = [.nil] := by
  decide

/-- C15, amended: for every non-empty text of printable single-byte
characters other than `q`, typed character by character, and every non-empty
command `c`, when both configuration values are set and the endpoint answers
the request for that text with a reply whose first choice has a content that
decodes to the command `c`: typing returns no command, enter returns the
request for `context + "---" + text` and leaves the session Generating,
`GetCommand` passes the one request carrying the marshalled body to the
endpoint and returns `c`, so running the command posts the successful outcome
carrying `c`, after which the session is in phase Result with `result` equal
to `c`; enter then sets `done`, returns the quit command, and `main` without
a path argument prints exactly `c` to standard output and nothing else. -/
theorem scenario (ctx : GoString) (text : List Char) (c : GoString) (env : Env) (cl : Client)
    (body responseData content : GoString) (others : List GoString)
    (ht : text ≠ []) (hp : ∀ ch ∈ text, printableASCII ch ∧ ch ≠ 'q') (hc : c ≠ [])
    (hkey : Getenv env (lit "OPENAI_KEY") ≠ [])
    (hend : Getenv env (lit "OPENAI_ENDPOINT") ≠ [])
    (hbody : cl.Marshal (requestBody systemInstruction (ctx ++ lit "---" ++ encode text)) =
      .ok body)
    (hreq : cl.NewRequestError (Getenv env (lit "OPENAI_ENDPOINT")) = none)
    (hdo : cl.Do
        { Method := lit "POST", URL := Getenv env (lit "OPENAI_ENDPOINT"),
          Header := [(lit "Content-Type", lit "application/json"),
                     (lit "api-key", Getenv env (lit "OPENAI_KEY"))],
          Body := body } = .ok (.ok responseData))
    (hresp : cl.UnmarshalResponse responseData = .ok { Choices := content :: others })
    (hcmd : cl.UnmarshalCommand content = .ok { Command := c }) :
    dispatched (initialModel ctx) (typeText text ++ [.KeyMsg (lit "enter")]) =
        List.replicate text.length .nil ++
          [.GetCommand systemInstruction (ctx ++ lit "---" ++ encode text)] ∧
      phase (submitted ctx text) = .Generating ∧
      GetCommand env cl systemInstruction (ctx ++ lit "---" ++ encode text) =
        (.ok c,
          [{ Method := lit "POST", URL := Getenv env (lit "OPENAI_ENDPOINT"),
             Header := [(lit "Content-Type", lit "application/json"),
                        (lit "api-key", Getenv env (lit "OPENAI_KEY"))],
             Body := body }]) ∧
      runCmd env cl (.GetCommand systemInstruction (ctx ++ lit "---" ++ encode text)) =
        some (successMsg c) ∧
      phase (answered ctx text c) = .Result ∧
      (answered ctx text c).result = c ∧
      Update (answered ctx text c) (.KeyMsg (lit "enter")) =
        ({ answered ctx text c with done := true }, .Quit) ∧
      ∀ (WriteFile : GoString → GoString → Nat → Option GoString) (prog : GoString),
        main WriteFile [prog]
            (.ok (Update (answered ctx text c) (.KeyMsg (lit "enter"))).1) =
          { stdout := c, stderr := [], written := none, exitCode := 0 } := by
  have hq : ∀ ch ∈ text, ch ≠ 'q' := fun ch h => (hp ch h).2
  have hty := run_typeText text (initialModel ctx) hq rfl rfl
  have htext : (run (initialModel ctx) (typeText text)).textInput = encode text := by
    rw [hty.2.1]; rfl
  have hctx : (run (initialModel ctx) (typeText text)).context = ctx := by
    rw [hty.1]; rfl
  have hed : phase (run (initialModel ctx) (typeText text)) = .Editing := by
    rw [hty.1, phase_editing_iff]
    exact ⟨rfl, rfl, rfl⟩
  have hne : (run (initialModel ctx) (typeText text)).textInput ≠ [] := by
    rw [htext]; exact encode_ne_nil text ht
  have hen := Update_enter_submits _ hed hne
  rw [htext, hctx] at hen
  have hsub : submitted ctx text =
      (Update (run (initialModel ctx) (typeText text)) (.KeyMsg (lit "enter"))).1 := by
    simp only [submitted, run_append, run]
  have hgen : phase (submitted ctx text) = .Generating := by
    rw [hsub, hen, phase_generating_iff]
  have hans := Update_successMsg (submitted ctx text) c hc
  have hres : phase (answered ctx text c) = .Result := hans.1
  have hent := Update_enter_result (answered ctx text c) hres
  have hget := GetCommand_succeeds env cl systemInstruction
    (ctx ++ lit "---" ++ encode text) body responseData content others c
    hkey hend hbody hreq hdo hresp hcmd
  refine ⟨?_, hgen, hget, ?_, hres, hans.2, hent, ?_⟩
  · rw [dispatched_append, hty.2.2]
    simp only [dispatched]
    rw [hen]
  · simp only [runCmd]
    rw [hget]
    rfl
  · intro WriteFile prog
    rw [hent]
    have hr : (answered ctx text c).result = c := hans.2
    simp [main, hr, hc]

theorem scenario_witness :
    ("list files".data ≠ [] ∧
      (∀ ch ∈ "list files".data, printableASCII ch ∧ ch ≠ 'q') ∧ lit "ls -la" ≠ [] ∧
      (mockClient lsResponse).UnmarshalResponse lsResponse = .ok { Choices := [lsContent] } ∧
      (mockClient lsResponse).UnmarshalCommand lsContent = .ok { Command := lit "ls -la" }) ∧
      runCmd mockEnv (mockClient lsResponse)
          (.GetCommand systemInstruction ([] ++ lit "---" ++ encode "list files".data)) =
        some (successMsg (lit "ls -la")) ∧
      phase (answered [] "list files".data (lit "ls -la")) = .Result ∧
      (answered [] "list files".data (lit "ls -la")).result = lit "ls -la" ∧
      main writable [lit "termlm"]
          (.ok (Update (answered [] "list files".data (lit "ls -la"))
            (.KeyMsg (lit "enter"))).1) =
        { stdout := lit "ls -la", stderr := [], written := none, exitCode := 0 } :=
  ⟨⟨by decide, by decide, by decide, by decide, by decide⟩,
    (scenario [] "list files".data (lit "ls -la") mockEnv (mockClient lsResponse)
      (lit "body") lsResponse lsContent [] (by decide) (by decide) (by decide) (by decide)
      (by decide) rfl rfl rfl (by decide) (by decide)).2.2.2.1,
    (scenario [] "list files".data (lit "ls -la") mockEnv (mockClient lsResponse)
      (lit "body") lsResponse lsContent [] (by decide) (by decide) (by decide) (by decide)
      (by decide) rfl rfl rfl (by decide) (by decide)).2.2.2.2.1,
    (scenario [] "list files".data (lit "ls -la") mockEnv (mockClient lsResponse)
      (lit "body") lsResponse lsContent [] (by decide) (by decide) (by decide) (by decide)
      (by decide) rfl rfl rfl (by decide) (by decide)).2.2.2.2.2.1,
    (scenario [] "list files".data (lit "ls -la") mockEnv (mockClient lsResponse)
      (lit "body") lsResponse lsContent [] (by decide) (by decide) (by decide) (by decide)
      (by decide) rfl rfl rfl (by decide) (by decide)).2.2.2.2.2.2.2 writable (lit "termlm")⟩

end Termlm
